import Mathlib

/-!
# Verification of the M-PU-3 assembler core

Shallow embedding of the assembler pipeline found in `src/Assembler`
(tokenizer.py, parser.py, validator.py, load_instructions.py,
code_generator.py, assembler.py, constants.py), together with theorems
settling the specification claims about it.

Python integers are modelled as `Int` (`Nat` where the source only ever
holds non-negative values), Python strings as `String`/`List Char`, raised
exceptions as the `Except` monad over a structured error type, and Python
`dict`s keyed by strings as association lists with last-binding-wins
lookup (mirroring how the source builds its dicts from lists).
Exception *messages* are abstracted to the data they interpolate.
-/

set_option maxRecDepth 10000

/-- `constants.py`: `AssemblerConstants.MAX_PROGRAM_SIZE = 1024`. -/
def MAX_PROGRAM_SIZE : Nat := 1024

/-- `constants.py`: `AssemblerConstants.NUM_REGISTERS = 8`. -/
def NUM_REGISTERS : Nat := 8

/-- `tokenizer.py`: dataclass `Token(type, value, line, start_column)`. -/
structure Token where
  type : String
  value : String
  line : Nat
  start_column : Nat
deriving DecidableEq

/-- Parsed program line, as produced by `parser.py` (`parse_line` returns a
dict with a `"type"` tag of `"label"` or `"instruction"`). -/
inductive Stmt where
  | label (name : String) (line column : Nat)
  | instruction (mnemonic : String) (arguments : List Token) (line column : Nat)
deriving DecidableEq

/-- One operand record of a catalog entry (JSON object).  `range` is the
optional `"range"` key (a JSON array of integers); `transformations` is the
optional `"transformations"` key, whose value may be JSON `null`
(`some none`) or a list of strings (`some (some ts)`). -/
structure OperandSpec where
  type : String
  range : Option (List Int) := none
  transformations : Option (Option (List String)) := none
deriving DecidableEq

/-- One catalog entry (JSON object) with the fields the core reads.
`load_instructions.py` requires exactly these fields to be present. -/
structure InstrSpec where
  mnemonic : String
  operands : List OperandSpec
  code_template : String
deriving DecidableEq

/-- Structured stand-ins for the exceptions the Python code can raise.
Constructors ending in `Error` correspond to the classes of `errors.py`
(fields record the data interpolated into their messages); the remaining
constructors model uncaught built-in Python exceptions. -/
inductive AsmError where
  | unexpectedCharError (line column : Nat)
  | invalidSyntaxError (line column : Nat)
  | invalidInstructionError (mnemonic : String) (line column : Nat)
  | invalidOperandError (expected got : String) (line column : Nat)
  | invalidRegisterError (n : Int) (line column : Nat)
  | invalidAddressError (line column : Nat)
  | valueOutOfRangeError (n : Int) (line column : Nat)
  | duplicateLabelError (name : String) (line : Nat)
  | undefinedLabelError (name : String) (line column : Nat)
  | programTooLongError (current : Nat) (line : Nat)
  | instructionsError (operandType : String)
  | instructionFormatError (context : String)
  | keyError (key : String)
  | attributeError
  | typeError
  | valueError
  | indexError
deriving DecidableEq

/- ## Python integer parsing

`utils.py` / `validator.py` parse operand literals with `int(value, 0)`
(`get_number`) and `int(value[1:])` (`get_register_number`).  A failed
parse raises `ValueError`, modelled as `none`. -/

/-- Numeric value of a decimal digit character. -/
def digitVal (c : Char) : Nat := c.toNat - '0'.toNat

/-- Numeric value of a hexadecimal digit character. -/
def hexVal (c : Char) : Nat :=
  if c.isDigit then c.toNat - '0'.toNat
  else if 'a' ≤ c ∧ c ≤ 'f' then c.toNat - 'a'.toNat + 10
  else c.toNat - 'A'.toNat + 10

def isBinDigitCh (c : Char) : Bool := c = '0' ∨ c = '1'

def isOctDigitCh (c : Char) : Bool := '0' ≤ c ∧ c ≤ '7'

def isHexDigitCh (c : Char) : Bool :=
  c.isDigit ∨ ('a' ≤ c ∧ c ≤ 'f') ∨ ('A' ≤ c ∧ c ≤ 'F')

/-- Fold a digit list into a value in the given base. -/
def digitsToNat (base : Nat) (dval : Char → Nat) (ds : List Char) : Nat :=
  ds.foldl (fun a c => base * a + dval c) 0

/-- Python `int(s)` (base 10) on an unsigned digit string: at least one
digit, leading zeros allowed. -/
def pyIntUnsignedDec (l : List Char) : Option Nat :=
  if l ≠ [] ∧ l.all Char.isDigit then some (digitsToNat 10 digitVal l) else none

/-- Python `int(s)` (base 10) with an optional sign.  (Surrounding
whitespace and digit-group underscores never occur in tokenizer output and
are not modelled.) -/
def pyIntDec (s : String) : Option Int :=
  match s.toList with
  | '-' :: rest => (pyIntUnsignedDec rest).map (fun n => -(n : Int))
  | '+' :: rest => (pyIntUnsignedDec rest).map (fun n => (n : Int))
  | l => (pyIntUnsignedDec l).map (fun n => (n : Int))

/-- Python `int(s, 0)` on an unsigned numeral: `0x`/`0b`/`0o` prefixed
literals, or a decimal literal, which (per Python's base-0 rules) must not
have redundant leading zeros (`"007"` is a `ValueError`, `"00"` is `0`). -/
def pyIntUnsigned0 : List Char → Option Nat
  | '0' :: c :: rest =>
    if c = 'x' ∨ c = 'X' then
      if rest ≠ [] ∧ rest.all isHexDigitCh then some (digitsToNat 16 hexVal rest) else none
    else if c = 'b' ∨ c = 'B' then
      if rest ≠ [] ∧ rest.all isBinDigitCh then some (digitsToNat 2 digitVal rest) else none
    else if c = 'o' ∨ c = 'O' then
      if rest ≠ [] ∧ rest.all isOctDigitCh then some (digitsToNat 8 digitVal rest) else none
    else
      if ('0' :: c :: rest).all (· = '0') then some 0 else none
  | l => if l ≠ [] ∧ l.all Char.isDigit then some (digitsToNat 10 digitVal l) else none

/-- Python `int(s, 0)` with an optional sign. -/
def pyInt0 (s : String) : Option Int :=
  match s.toList with
  | '-' :: rest => (pyIntUnsigned0 rest).map (fun n => -(n : Int))
  | '+' :: rest => (pyIntUnsigned0 rest).map (fun n => (n : Int))
  | l => (pyIntUnsigned0 l).map (fun n => (n : Int))

/-- `utils.py` / `validator.py`: `get_number(token) = int(token.value, 0)`. -/
def get_number (t : Token) : Option Int := pyInt0 t.value

/-- `utils.py` / `validator.py`:
`get_register_number(token) = int(token.value[1:])`. -/
def get_register_number (t : Token) : Option Int := pyIntDec ⟨t.value.toList.drop 1⟩

/-- Python `str.upper()`; mnemonics are ASCII (`[A-Za-z]+`), where it
agrees with `Char.toUpper`. -/
def pyUpper (s : String) : String := ⟨s.toList.map Char.toUpper⟩

/-- `validator.py`: `is_register`. -/
def is_register (t : Token) : Bool := t.type = "REGISTER"

/-- `validator.py`: `is_number` (`token.type in ['HEX', 'BIN', 'DEC']`). -/
def is_number (t : Token) : Bool := t.type = "HEX" ∨ t.type = "BIN" ∨ t.type = "DEC"

/-- `validator.py`: `is_address` (`token.type in ['IDENT', 'HEX', 'BIN', 'DEC']`). -/
def is_address (t : Token) : Bool := t.type = "IDENT" ∨ is_number t

/-- The Python dict built by `{item['mnemonic']: item for item in content}`:
on duplicate keys the later entry wins; `.get` returns `None` for a missing
key. -/
def dictGet (catalog : List InstrSpec) (m : String) : Option InstrSpec :=
  catalog.foldl (fun acc it => if it.mnemonic = m then some it else acc) none

/-- Symbol-table lookup (`dict.get` on `symbol_table`; keys are unique
because duplicates raise before insertion). -/
def tableGet (table : List (String × Nat)) (k : String) : Option Nat :=
  List.lookup k table

/-- Python `label in symbol_table`. -/
def tableContains (table : List (String × Nat)) (k : String) : Bool :=
  (tableGet table k).isSome

/- ## Code generator (`code_generator.py`) -/

/-- The `n_bits` binary digits of `m` (most significant first), for
`m < 2 ^ n_bits`.  Python's `format(m, f"0{n_bits}b")` zero-pads the
binary numeral of `m` to `n_bits` characters; each call site has
`m < 2 ^ n_bits` (masking) and `n_bits ≥ 1` (a placeholder run is
nonempty), where the two renderings agree. -/
def toBits : Nat → Nat → List Char
  | _, 0 => []
  | m, w + 1 => toBits (m / 2) w ++ [if m % 2 = 1 then '1' else '0']

/-- `AssemblerCodeGenerator._int_to_bin`: wrap negatives by adding
`1 << n_bits`, mask with `(1 << n_bits) - 1` (bitwise AND with the
all-ones mask is reduction modulo `2 ^ n_bits`, also for negative Python
ints), and render zero-padded binary. -/
def int_to_bin (number : Int) (n_bits : Nat) : String :=
  let wrapped : Int := if number < 0 then (2 ^ n_bits : Int) + number else number
  let masked : Nat := (wrapped % (2 ^ n_bits : Int)).toNat
  ⟨toBits masked n_bits⟩

/-- `constants.py`: `AssemblerConstants.TRANSFORMATIONS`, a dict of
unary functions; `not x` yields the int 1 on zero and 0 otherwise, `//`
is floor division.  A missing key is a `KeyError` (`none`). -/
def TRANSFORMATIONS : String → Option (Int → Int)
  | "neq" => some fun x => if x = 0 then 1 else 0
  | "div2" => some fun x => Int.fdiv x 2
  | "dec" => some fun x => x - 1
  | _ => none

/-- `AssemblerCodeGenerator._transform_operand`: `None` is the identity,
otherwise `reduce` applies the named transformations left to right. -/
def transform_operand (num : Int) (transformations : Option (List String)) :
    Except AsmError Int :=
  match transformations with
  | none => .ok num
  | some ts =>
    ts.foldlM
      (fun n t =>
        match TRANSFORMATIONS t with
        | some f => .ok (f n)
        | none => .error (.keyError t))
      num

/-- Length of the leading run of `'_'` characters. -/
def runLength : List Char → Nat
  | [] => 0
  | c :: t => if c = '_' then runLength t + 1 else 0

/-- Leftmost match of the regex `c_*` (the placeholder letter followed by
greedily many underscores): its start position and length, or `none` when
`re.search` finds no occurrence of `c`. -/
def findRun (c : Char) : List Char → Option (Nat × Nat)
  | [] => none
  | a :: t =>
    if a = c then some (0, runLength t + 1)
    else (findRun c t).map (fun p => (p.1 + 1, p.2))

/-- `AssemblerCodeGenerator._replace_placeholder`: substitute the leftmost
`c_*` run with the binary encoding of `number`.  When `re.search` returns
`None`, the subsequent `match.start()` raises `AttributeError`. -/
def replace_placeholder (template : String) (start_character : Char)
    (number : Int) : Except AsmError String :=
  match findRun start_character template.toList with
  | none => .error .attributeError
  | some (pos, len) =>
    .ok ⟨template.toList.take pos ++ (int_to_bin number len).toList
          ++ template.toList.drop (pos + len)⟩

/-- Loop body of `AssemblerCodeGenerator._resolve_labels`, with the address
counter and the symbol table threaded explicitly. -/
def resolve_labels_go (address : Nat) (table : List (String × Nat)) :
    List Stmt → Except AsmError (List (String × Nat))
  | [] => .ok table
  | .label name line _ :: rest =>
    if tableContains table name then .error (.duplicateLabelError name line)
    else resolve_labels_go address (table ++ [(name, address)]) rest
  | .instruction _ _ line _ :: rest =>
    if address + 1 > MAX_PROGRAM_SIZE then
      .error (.programTooLongError (address + 1) line)
    else resolve_labels_go (address + 1) table rest

/-- `AssemblerCodeGenerator._resolve_labels` (first pass), returning the
symbol table it builds. -/
def resolve_labels (program : List Stmt) : Except AsmError (List (String × Nat)) :=
  resolve_labels_go 0 [] program

/-- Operand loop of `AssemblerCodeGenerator.generate_instruction`, over the
`zip` of argument tokens and operand specs.  An operand spec whose `type`
matches no `case` is skipped silently (Python `match` falls through). -/
def generate_operands (table : List (String × Nat)) (binary_code : String) :
    List (Token × OperandSpec) → Except AsmError String
  | [] => .ok binary_code
  | (operand, ospec) :: rest =>
    if ospec.type = "reg" then
      match get_register_number operand with
      | none => .error .valueError
      | some reg_num => do
        let b ← replace_placeholder binary_code 'R' reg_num
        generate_operands table b rest
    else if ospec.type = "num" then
      match get_number operand with
      | none => .error .valueError
      | some num =>
        match ospec.transformations with
        | none => .error (.keyError "transformations")
        | some ts => do
          let transformed_num ← transform_operand num ts
          let b ← replace_placeholder binary_code 'N' transformed_num
          generate_operands table b rest
    else if ospec.type = "adr" then
      if operand.type = "IDENT" then
        match tableGet table operand.value with
        | none =>
          .error (.undefinedLabelError operand.value operand.line operand.start_column)
        | some adr => do
          let b ← replace_placeholder binary_code 'A' (adr : Int)
          generate_operands table b rest
      else
        match get_number operand with
        | none => .error .valueError
        | some adr => do
          let b ← replace_placeholder binary_code 'A' adr
          generate_operands table b rest
    else
      generate_operands table binary_code rest

/-- `AssemblerCodeGenerator.generate_instruction`.  `instructions.get`
returns `None` for an unknown mnemonic, and the subsequent subscript of
`None` raises `TypeError`. -/
def generate_instruction (catalog : List InstrSpec) (table : List (String × Nat))
    (mnemonic : String) (arguments : List Token) : Except AsmError String :=
  match dictGet catalog (pyUpper mnemonic) with
  | none => .error .typeError
  | some instruction_spec =>
    generate_operands table instruction_spec.code_template
      (arguments.zip instruction_spec.operands)

/-- Second pass of `AssemblerCodeGenerator.generate_code`: one word per
instruction line, in order. -/
def generate_code_go (catalog : List InstrSpec) (table : List (String × Nat)) :
    List Stmt → Except AsmError (List String)
  | [] => .ok []
  | .label _ _ _ :: rest => generate_code_go catalog table rest
  | .instruction mnemonic arguments _ _ :: rest => do
    let c ← generate_instruction catalog table mnemonic arguments
    let cs ← generate_code_go catalog table rest
    .ok (c :: cs)

/-- `AssemblerCodeGenerator.generate_code`: resolve labels, then generate
machine code for each instruction line. -/
def generate_code (catalog : List InstrSpec) (program : List Stmt) :
    Except AsmError (List String) := do
  let table ← resolve_labels program
  generate_code_go catalog table program

/- ## Validator (`validator.py`) -/

/-- `AssemblerValidator.is_in_range(number, range_list)`:
`range_list[0] <= number <= range_list[1]`; a list with fewer than two
elements raises `IndexError`. -/
def is_in_range (number : Int) (range_list : List Int) : Except AsmError Bool :=
  match range_list with
  | a :: b :: _ => .ok (a ≤ number ∧ number ≤ b)
  | _ => .error .indexError

/-- `AssemblerValidator.validate_operand`.  A missing `range` key raises
`KeyError`; an unparseable literal raises `ValueError` inside
`get_register_number`/`get_number`. -/
def validate_operand (operand : Token) (operand_spec : OperandSpec) :
    Except AsmError Unit :=
  if operand_spec.type = "reg" then
    if ¬ is_register operand then
      .error (.invalidOperandError "register" operand.type operand.line operand.start_column)
    else
      match get_register_number operand with
      | none => .error .valueError
      | some reg_num =>
        if ¬ (0 ≤ reg_num ∧ reg_num < (NUM_REGISTERS : Int)) then
          .error (.invalidRegisterError reg_num operand.line operand.start_column)
        else .ok ()
  else if operand_spec.type = "num" then
    if ¬ is_number operand then
      .error (.invalidOperandError "numeric" operand.type operand.line operand.start_column)
    else
      match get_number operand with
      | none => .error .valueError
      | some number =>
        match operand_spec.range with
        | none => .error (.keyError "range")
        | some range_list => do
          let inRange ← is_in_range number range_list
          if ¬ inRange then
            .error (.valueOutOfRangeError number operand.line operand.start_column)
          else .ok ()
  else if operand_spec.type = "adr" then
    if ¬ is_address operand then
      .error (.invalidOperandError "address" operand.type operand.line operand.start_column)
    else if is_number operand then
      match get_number operand with
      | none => .error .valueError
      | some number =>
        if ¬ (0 ≤ number ∧ number < (MAX_PROGRAM_SIZE : Int)) then
          .error (.invalidAddressError operand.line operand.start_column)
        else .ok ()
    else .ok ()
  else .error (.instructionsError operand_spec.type)

/-- Operand loop of `AssemblerValidator.validate_instruction` (fail-fast,
in declaration order, over the `zip` of arguments and operand specs). -/
def validate_operand_list : List (Token × OperandSpec) → Except AsmError Unit
  | [] => .ok ()
  | (operand, ospec) :: rest => do
    validate_operand operand ospec
    validate_operand_list rest

/-- `AssemblerValidator.validate_instruction`. -/
def validate_instruction (catalog : List InstrSpec) (mnemonic : String)
    (arguments : List Token) (line column : Nat) : Except AsmError Unit :=
  match dictGet catalog (pyUpper mnemonic) with
  | none => .error (.invalidInstructionError (pyUpper mnemonic) line column)
  | some instruction_spec =>
    if arguments.length ≠ instruction_spec.operands.length then
      .error (.invalidSyntaxError line column)
    else validate_operand_list (arguments.zip instruction_spec.operands)

/-- `AssemblerValidator.validate`: check each instruction line in order.
(The validator loads its catalog copy from the same JSON data as the code
generator, without the loader's format validation; both are modelled by
the same `List InstrSpec` value.) -/
def validate_program (catalog : List InstrSpec) : List Stmt → Except AsmError Unit
  | [] => .ok ()
  | .label _ _ _ :: rest => validate_program catalog rest
  | .instruction mnemonic arguments line column :: rest => do
    validate_instruction catalog mnemonic arguments line column
    validate_program catalog rest

/- ## Catalog validation (`load_instructions.py`) -/

/-- `InstructionLoader._VALID_TRANSFORMATIONS`. -/
def VALID_TRANSFORMATIONS : List String := ["div2", "neq", "dec"]

/-- `InstructionLoader._VALID_OPERAND_TYPES`. -/
def VALID_OPERAND_TYPES : List String := ["num", "reg", "adr"]

/-- Body of the per-operand loop of `InstructionLoader._validate_operands`.
JSON `null` for `transformations` fails the `isinstance(.., list)`
check. -/
def validate_operand_spec_one (mnemonic : String) (operand : OperandSpec) :
    Except AsmError Unit :=
  if ¬ operand.type ∈ VALID_OPERAND_TYPES then
    .error (.instructionFormatError mnemonic)
  else if operand.type = "num" then
    match operand.range with
    | none => .error (.instructionFormatError mnemonic)
    | some range_val =>
      if h : range_val.length = 2 then
        if range_val[0] > range_val[1] then
          .error (.instructionFormatError mnemonic)
        else
          match operand.transformations with
          | none => .ok ()
          | some none => .error (.instructionFormatError mnemonic)
          | some (some ts) =>
            if ts.all (· ∈ VALID_TRANSFORMATIONS) then .ok ()
            else .error (.instructionFormatError mnemonic)
      else .error (.instructionFormatError mnemonic)
  else .ok ()

/-- Per-operand loop of `InstructionLoader._validate_operands`. -/
def validate_operands_spec (mnemonic : String) : List OperandSpec → Except AsmError Unit
  | [] => .ok ()
  | operand :: rest => do
    validate_operand_spec_one mnemonic operand
    validate_operands_spec mnemonic rest

/-- Placeholder letter for an operand type:
`{"reg": "R", "num": "N", "adr": "A"}[operand_type]`; a missing key raises
`KeyError`. -/
def placeholderFor (operandType : String) : Option Char :=
  if operandType = "reg" then some 'R'
  else if operandType = "num" then some 'N'
  else if operandType = "adr" then some 'A'
  else none

/-- Operand walk of `InstructionLoader._validate_code_template` over the
remaining template.  When `re.search` finds no run, it returns `None` and
the subsequent `match.start()` raises `AttributeError`; the `pos == -1`
guard below it (intended to raise the format error) is unreachable, since
`pos` comes from a successful match. -/
def validate_template_go (mnemonic : String) (remaining_template : List Char) :
    List OperandSpec → Except AsmError Unit
  | [] =>
    if remaining_template.all (fun c => c = '0' ∨ c = '1') then .ok ()
    else .error (.instructionFormatError mnemonic)
  | operand :: rest =>
    match placeholderFor operand.type with
    | none => .error (.keyError operand.type)
    | some expected_placeholder =>
      match findRun expected_placeholder remaining_template with
      | none => .error .attributeError
      | some (pos, len) =>
        if (pos : Int) = -1 then .error (.instructionFormatError mnemonic)
        else validate_template_go mnemonic (remaining_template.drop (pos + len)) rest

/-- `InstructionLoader._validate_code_template`. -/
def validate_code_template (code_template : String) (operands : List OperandSpec)
    (mnemonic : String) : Except AsmError Unit :=
  if code_template.length ≠ 16 then .error (.instructionFormatError mnemonic)
  else validate_template_go mnemonic code_template.toList operands

/-- Entry loop of `InstructionLoader._validate_instructions_file` (the
JSON-shape checks subsumed by the typed model are omitted): non-empty
mnemonic, no duplicate mnemonics, operand validation, template
validation. -/
def validate_instructions_go (seen : List String) : List InstrSpec → Except AsmError Unit
  | [] => .ok ()
  | instruction :: rest => do
    if instruction.mnemonic = "" then
      .error (.instructionFormatError instruction.mnemonic)
    else if instruction.mnemonic ∈ seen then
      .error (.instructionFormatError instruction.mnemonic)
    else do
      validate_operands_spec instruction.mnemonic instruction.operands
      validate_code_template instruction.code_template instruction.operands
        instruction.mnemonic
      validate_instructions_go (instruction.mnemonic :: seen) rest

/-- `InstructionLoader._validate_instructions_file`. -/
def validate_instructions_file (content : List InstrSpec) : Except AsmError Unit :=
  validate_instructions_go [] content

/- ## Tokenizer (`tokenizer.py`) -/

def isIdentStartCh (c : Char) : Bool := c.isAlpha ∨ c = '_'

def isIdentCh (c : Char) : Bool := c.isAlphanum ∨ c = '_'

def isSkipCh (c : Char) : Bool := c = '\t' ∨ c = ' ' ∨ c = ','

/-- Length of the longest prefix whose characters satisfy `p` (a greedy
`p*` regex piece). -/
def countWhile (p : Char → Bool) : List Char → Nat
  | [] => 0
  | c :: t => if p c then countWhile p t + 1 else 0

/-- Match one of the unsigned numeric patterns `0x[0-9A-Fa-f]+`,
`0b[01]+`, `[0-9]+` at the start of the input, in the tokenizer's
precedence order (`HEX`, `BIN`, `DEC`); returns the kind and matched
length.  A bare `0x`/`0b` prefix without digits falls back to `DEC`
matching just the `0`, exactly as the regex alternation does. -/
def numTokenMatch (l : List Char) : Option (String × Nat) :=
  let dec :=
    let k := countWhile Char.isDigit l
    if k > 0 then some ("DEC", k) else none
  match l with
  | '0' :: 'x' :: t =>
    let k := countWhile isHexDigitCh t
    if k > 0 then some ("HEX", 2 + k) else dec
  | '0' :: 'b' :: t =>
    let k := countWhile isBinDigitCh t
    if k > 0 then some ("BIN", 2 + k) else dec
  | _ => dec

/-- First-match alternation of `TOKEN_SPECIFICATION` at the current scan
position: returns the token kind and the matched length (every pattern
matches at least one character; the patterns' first characters make the
precedence order collapse to this case split). -/
def tryMatch : List Char → String × Nat
  | [] => ("MISMATCH", 1)
  | c :: rest =>
    if c = ';' then ("COMMENT", 1 + countWhile (fun x => ¬ x = '\n') rest)
    else if c = '.' then
      match rest with
      | d :: t =>
        if isIdentStartCh d then
          let k := countWhile isIdentCh t
          match t.drop k with
          | ':' :: _ => ("LABEL", 2 + k + 1)
          | _ => ("IDENT", 2 + k)
        else ("MISMATCH", 1)
      | [] => ("MISMATCH", 1)
    else if c = 'R' then
      let k := countWhile Char.isDigit rest
      if k > 0 then ("REGISTER", 1 + k)
      else ("MNEMONIC", 1 + countWhile Char.isAlpha rest)
    else if c = '-' then
      match numTokenMatch rest with
      | some (ty, n) => (ty, 1 + n)
      | none => ("MISMATCH", 1)
    else
      match numTokenMatch (c :: rest) with
      | some (ty, n) => (ty, n)
      | none =>
        if c.isAlpha then ("MNEMONIC", 1 + countWhile Char.isAlpha rest)
        else if c = '\n' then ("NEWLINE", 1)
        else if isSkipCh c then ("SKIP", 1 + countWhile isSkipCh rest)
        else ("MISMATCH", 1)

/-- Scan loop of `AssemblerTokenizer.tokenize`.  `fuel` only bounds the
iteration count (each match consumes at least one character, so an initial
fuel of the input length always suffices). -/
def tokenizeGo : Nat → List Char → Nat → Nat → Nat → Except AsmError (List Token)
  | 0, _, _, _, _ => .ok []
  | _, [], _, _, _ => .ok []
  | fuel + 1, s, pos, line_num, line_start =>
    let (ty, len) := tryMatch s
    let column := pos - line_start + 1
    if ty = "NEWLINE" then
      tokenizeGo fuel (s.drop len) (pos + len) (line_num + 1) (pos + len)
    else if ty = "SKIP" ∨ ty = "COMMENT" then
      tokenizeGo fuel (s.drop len) (pos + len) line_num line_start
    else if ty = "MISMATCH" then .error (.unexpectedCharError line_num column)
    else do
      let rest ← tokenizeGo fuel (s.drop len) (pos + len) line_num line_start
      .ok (⟨ty, ⟨s.take len⟩, line_num, column⟩ :: rest)

/-- `AssemblerTokenizer.tokenize`. -/
def tokenize (code : String) : Except AsmError (List Token) :=
  tokenizeGo code.length code.toList 0 1 0

/- ## Parser (`parser.py`) -/

/-- `AssemblerParser._VALID_OPERAND_TYPES`. -/
def PARSE_OPERAND_TYPES : List String := ["REGISTER", "DEC", "HEX", "BIN", "IDENT"]

/-- `AssemblerParser._collect_operands`: consume same-line operand tokens;
a token on a new line is pushed back and returned with the remainder. -/
def collect_operands (current_line : Nat) :
    List Token → Except AsmError (List Token × List Token)
  | [] => .ok ([], [])
  | tok :: rest =>
    if tok.line ≠ current_line then .ok ([], tok :: rest)
    else if tok.type ∈ PARSE_OPERAND_TYPES then do
      let (ops, rem) ← collect_operands current_line rest
      .ok (tok :: ops, rem)
    else .error (.invalidSyntaxError tok.line tok.start_column)

/-- Python `str.removesuffix(":")`. -/
def removesuffixColon (s : String) : String :=
  if s.toList.getLast? = some ':' then ⟨s.toList.dropLast⟩ else s

/-- Loop of `AssemblerParser.parse` / `parse_line`.  `fuel` only bounds the
iteration count (each line consumes at least one token). -/
def parse_program_go : Nat → List Token → Except AsmError (List Stmt)
  | 0, _ => .ok []
  | _, [] => .ok []
  | fuel + 1, tok :: rest =>
    if tok.type = "LABEL" then do
      let prog ← parse_program_go fuel rest
      .ok (.label (removesuffixColon tok.value) tok.line tok.start_column :: prog)
    else if tok.type = "MNEMONIC" then do
      let (args, rem) ← collect_operands tok.line rest
      let prog ← parse_program_go fuel rem
      .ok (.instruction tok.value args tok.line tok.start_column :: prog)
    else .error (.invalidSyntaxError tok.line tok.start_column)

/-- `AssemblerParser.parse`. -/
def parse_program (tokens : List Token) : Except AsmError (List Stmt) :=
  parse_program_go tokens.length tokens

/- ## Full pipeline (`assembler.py`) -/

/-- `Assembler.assemble`: tokenize, parse, validate the program against
the catalog, then generate code (constructing the code generator first
runs the loader's catalog validation). -/
def assemble (catalog : List InstrSpec) (code : String) :
    Except AsmError (List String) := do
  let tokens ← tokenize code
  let program ← parse_program tokens
  validate_program catalog program
  validate_instructions_file catalog
  generate_code catalog program

/- ## Specification-side vocabulary -/

def isBin01 (c : Char) : Bool := c = '0' ∨ c = '1'

def isInstrStmt : Stmt → Bool
  | .instruction _ _ _ _ => true
  | .label _ _ _ => false

/-- Number of `Instruction` statements of a program. -/
def countInstr (p : List Stmt) : Nat := (p.filter isInstrStmt).length

/-- Names of the `Label` statements of a program, in order. -/
def labelNames (p : List Stmt) : List String :=
  p.filterMap fun s =>
    match s with
    | .label n _ _ => some n
    | .instruction _ _ _ _ => none

/-- No two `Label` statements share a name. -/
def noDupLabels (p : List Stmt) : Prop := (labelNames p).Nodup

/-- Source line recorded on a statement. -/
def stmtLine : Stmt → Nat
  | .label _ line _ => line
  | .instruction _ _ line _ => line

/-- Modelled from the spec: the §3 invariant on a `code_template`.
Walking the operands in declared order, each finds the leftmost maximal
run of its placeholder letter in the not-yet-consumed template, every
character skipped over is `0`/`1`, and after all runs are consumed only
`0`/`1` characters remain. -/
def templateInvariantGo (remaining : List Char) : List OperandSpec → Bool
  | [] => remaining.all isBin01
  | op :: rest =>
    match placeholderFor op.type with
    | none => false
    | some c =>
      match findRun c remaining with
      | none => false
      | some (pos, len) =>
        (remaining.take pos).all isBin01 &&
          templateInvariantGo (remaining.drop (pos + len)) rest

/-- Modelled from the spec: §3 template invariant for an operand list. -/
def templateInvariant (operands : List OperandSpec) (template : List Char) : Bool :=
  templateInvariantGo template operands

/-- Modelled from the spec: the value of a binary string read as an
unsigned numeral, most significant character first. -/
def decodeUnsigned (s : List Char) : Nat :=
  s.foldl (fun a c => 2 * a + (if c = '1' then 1 else 0)) 0

/-- Modelled from the spec: the value of a `w`-bit binary string read as a
two's-complement signed integer (leading bit weighted `-2 ^ (w-1)`, i.e.
subtract `2 ^ w` when it is set). -/
def decodeSigned (w : Nat) (s : List Char) : Int :=
  (decodeUnsigned s : Int) - (if s.headD '0' = '1' then (2 ^ w : Int) else 0)

/- ## Concrete data for the end-to-end scenario -/

/-- The catalog of the end-to-end scenario: `MOV{reg, num[0,255]}`,
`ADD{reg,reg}`, `JMP{adr}` with the quoted templates (the `num` operand
carries an empty transformation list, as in the repository's own test
catalog). -/
def catalogC1 : List InstrSpec :=
  [ ⟨"MOV", [⟨"reg", none, none⟩, ⟨"num", some [0, 255], some (some [])⟩],
      "00001R__N_______"⟩,
    ⟨"ADD", [⟨"reg", none, none⟩, ⟨"reg", none, none⟩], "00011R__R__00000"⟩,
    ⟨"JMP", [⟨"adr", none, none⟩], "00010A__________"⟩ ]

/-- The five-line source program of the end-to-end scenario. -/
def sourceC1 : String := ".start:\nMOV R1, 5\n.loop:\nADD R1, R2\nJMP .loop"

/-- C1: assembling the five-line program `.start: / MOV R1, 5 / .loop: /
ADD R1, R2 / JMP .loop` against the quoted catalog produces exactly the
three words `0000100100000101`, `0001100101000000`, `0001000000000001` in
that order, and the label-resolution pass maps `.loop` to address 1
(and `.start` to 0). -/
theorem c1_end_to_end_assembly :
    assemble catalogC1 sourceC1 =
      .ok ["0000100100000101", "0001100101000000", "0001000000000001"] ∧
    (tokenize sourceC1 >>= parse_program >>= resolve_labels) =
      .ok [(".start", 0), (".loop", 1)] := ⟨rfl, rfl⟩

/- ## C5: transformation semantics -/

/-- Modelled from the spec: the declared semantics of the three operand
transformations (`neq` logical negation, `div2` floor division by 2,
`dec` subtract 1). -/
def transformSem (t : String) (x : Int) : Int :=
  if t = "neq" then (if x = 0 then 1 else 0)
  else if t = "div2" then Int.fdiv x 2
  else x - 1

/-- C5: the operand transformations compose left-to-right over the
declared list with semantics `neq` = logical negation, `div2` = floor
division by 2, `dec` = subtract 1; `['div2','dec']` maps 10 to 4,
`['neq']` maps 0 to 1 and any non-zero integer to 0. -/
theorem c5_transformations :
    (∀ (num : Int) (ts : List String), ts.all (· ∈ VALID_TRANSFORMATIONS) →
      transform_operand num (some ts) =
        .ok (ts.foldl (fun n t => transformSem t n) num)) ∧
    transform_operand 10 (some ["div2", "dec"]) = .ok 4 ∧
    transform_operand 0 (some ["neq"]) = .ok 1 ∧
    (∀ v : Int, v ≠ 0 → transform_operand v (some ["neq"]) = .ok 0) := by
  refine ⟨?_, rfl, rfl, ?_⟩
  · intro num ts hts
    induction ts generalizing num with
    | nil => rfl
    | cons t ts ih =>
      simp only [List.all_cons, Bool.and_eq_true, decide_eq_true_eq] at hts
      obtain ⟨ht, hts⟩ := hts
      have hstep : TRANSFORMATIONS t = some (transformSem t) := by
        simp only [VALID_TRANSFORMATIONS, List.mem_cons, List.not_mem_nil, or_false] at ht
        rcases ht with h | h | h <;> subst h <;>
          exact congrArg some (funext fun x => by simp [transformSem, TRANSFORMATIONS])
      simp only [transform_operand, List.foldlM_cons, hstep, List.foldl_cons]
      simpa [transform_operand] using ih (transformSem t num) hts
  · intro v hv
    simp [transform_operand, TRANSFORMATIONS, List.foldlM, hv]

/-- C5 witness: the general composition clause applied at the concrete
list `['neq']` and value 5, and the non-zero clause at 5. -/
theorem c5_transformations_witness :
    transform_operand 5 (some ["neq"]) = .ok 0 ∧
    transform_operand 5 (some ["neq"]) =
      .ok ((["neq"]).foldl (fun n t => transformSem t n) 5) := by
  refine ⟨c5_transformations.2.2.2 5 (by decide), ?_⟩
  exact c5_transformations.1 5 ["neq"] (by decide)

/- ## C6: code-template validation on a missing placeholder run -/

/-- C6 (documenting the code bug): on a catalog entry whose template has a
`num` operand but no `N` run, `_validate_code_template` does *not* raise
the format error its (dead) `pos == -1` guard intends — `re.search`
returns `None` and `match.start()` raises `AttributeError`.  The second
conjunct shows the leftover-character half of the rule does raise the
format error identifying the mnemonic. -/
theorem c6_template_validation :
    validate_code_template "0000000000000000"
        [⟨"num", some [0, 255], some (some [])⟩] "BAD" =
      .error .attributeError ∧
    validate_code_template "N_______A_______"
        [⟨"num", some [0, 255], some (some [])⟩] "BAD" =
      .error (.instructionFormatError "BAD") := ⟨rfl, rfl⟩

/- ## C10: the `transformations` key at code-generation time -/

/-- A catalog whose single entry has a `num` operand *without* the
optional `transformations` key. -/
def catalogNoTransKey : List InstrSpec :=
  [⟨"MOV", [⟨"num", some [0, 255], none⟩], "00000000N_______"⟩]

/-- A catalog whose single entry has a `num` operand whose
`transformations` key is JSON `null`. -/
def catalogNullTransKey : List InstrSpec :=
  [⟨"MOV", [⟨"num", some [0, 255], some none⟩], "00000000N_______"⟩]

/-- C10: `_transform_operand` with `None` transformations is the
identity; the loader's operand validation accepts a `num` operand spec
without the `transformations` key; yet `generate_instruction` reads that
key unconditionally, so code generation for such an operand fails with a
`KeyError` — while the same spec with the key present (even as `null`)
generates successfully. -/
theorem c10_transformations_key :
    (∀ num : Int, transform_operand num none = .ok num) ∧
    (∀ (mn : String) (lo hi : Int), lo ≤ hi →
      validate_operands_spec mn [⟨"num", some [lo, hi], none⟩] = .ok ()) ∧
    generate_instruction catalogNoTransKey [] "MOV" [⟨"DEC", "5", 1, 5⟩] =
      .error (.keyError "transformations") ∧
    generate_instruction catalogNullTransKey [] "MOV" [⟨"DEC", "5", 1, 5⟩] =
      .ok "0000000000000101" := by
  refine ⟨fun num => rfl, ?_, rfl, rfl⟩
  intro mn lo hi h
  have hle : ¬ lo > hi := not_lt.mpr h
  simp [validate_operands_spec, validate_operand_spec_one, VALID_OPERAND_TYPES, hle]
  rfl

/-- C10 witness: the loader-acceptance clause applied at the concrete
range `[0, 255]`, and the identity clause at 7. -/
theorem c10_transformations_key_witness :
    validate_operands_spec "MOV" [⟨"num", some [(0 : Int), 255], none⟩] = .ok () ∧
    transform_operand 7 none = .ok 7 := by
  exact ⟨c10_transformations_key.2.1 "MOV" 0 255 (by decide),
    c10_transformations_key.1 7⟩

/- ## C3: the binary field encoder -/

theorem toBits_length (w : Nat) : ∀ m, (toBits m w).length = w := by
  induction w with
  | zero => intro m; rfl
  | succ w ih => intro m; simp [toBits, ih]

theorem toBits_all01 (w : Nat) : ∀ m, ((toBits m w).all isBin01) = true := by
  induction w with
  | zero => intro m; rfl
  | succ w ih =>
    intro m
    simp only [toBits, List.all_append, ih, Bool.true_and, List.all_cons,
      List.all_nil, Bool.and_true]
    rcases Nat.mod_two_eq_zero_or_one m with h | h <;> simp [h, isBin01]

theorem mod_two_pow_succ (m w : Nat) :
    m % 2 ^ (w + 1) = 2 * (m / 2 % 2 ^ w) + m % 2 := by
  have e2 := Nat.div_add_mod (m / 2) (2 ^ w)
  have hp : 2 ^ (w + 1) = 2 ^ w * 2 := Nat.pow_succ 2 w
  have h1 : m = 2 ^ (w + 1) * (m / 2 / 2 ^ w) + (2 * (m / 2 % 2 ^ w) + m % 2) :=
    calc m = 2 * (m / 2) + m % 2 := by omega
    _ = 2 * (2 ^ w * (m / 2 / 2 ^ w) + m / 2 % 2 ^ w) + m % 2 := by rw [e2]
    _ = 2 ^ (w + 1) * (m / 2 / 2 ^ w) + (2 * (m / 2 % 2 ^ w) + m % 2) := by
        rw [hp]; ring
  have h2 : 2 * (m / 2 % 2 ^ w) + m % 2 < 2 ^ (w + 1) := by
    have e3 : m / 2 % 2 ^ w < 2 ^ w := Nat.mod_lt _ (Nat.pos_pow_of_pos w (by omega))
    have e4 : m % 2 < 2 := Nat.mod_lt _ (by omega)
    omega
  conv_lhs => rw [h1]
  rw [Nat.mul_add_mod, Nat.mod_eq_of_lt h2]

theorem decodeUnsigned_toBits_aux (w : Nat) : ∀ m a,
    List.foldl (fun a c => 2 * a + (if c = '1' then 1 else 0)) a (toBits m w) =
      a * 2 ^ w + m % 2 ^ w := by
  induction w with
  | zero => intro m a; simp [toBits, Nat.mod_one]
  | succ w ih =>
    intro m a
    simp only [toBits, List.foldl_append, ih, List.foldl_cons, List.foldl_nil]
    have hbit : (if (if m % 2 = 1 then '1' else '0') = '1' then 1 else 0) = m % 2 := by
      rcases Nat.mod_two_eq_zero_or_one m with h | h <;> simp [h]
    rw [hbit, mod_two_pow_succ]
    ring

theorem decodeUnsigned_toBits (m w : Nat) :
    decodeUnsigned (toBits m w) = m % 2 ^ w := by
  simpa [decodeUnsigned] using decodeUnsigned_toBits_aux w m 0

/-- The emod value fits in `w` bits and casts back to itself. -/
theorem emod_toNat_facts (v : Int) (w : Nat) :
    (v % (2 ^ w : Int)).toNat < 2 ^ w ∧
    ((v % (2 ^ w : Int)).toNat : Int) = v % (2 ^ w : Int) := by
  have hpow : (0 : Int) < (2 ^ w : Int) := by positivity
  have h1 := Int.emod_nonneg v hpow.ne'
  have h2 := Int.emod_lt_of_pos v hpow
  have hcast : ((2 ^ w : Nat) : Int) = (2 ^ w : Int) := by push_cast; ring
  constructor
  · omega
  · omega

/-- The mask step of `_int_to_bin` computes `v` modulo `2 ^ w`. -/
theorem int_to_bin_masked (v : Int) (w : Nat) :
    int_to_bin v w = ⟨toBits (v % (2 ^ w : Int)).toNat w⟩ := by
  unfold int_to_bin
  by_cases h : v < 0
  · simp only [h, if_true]
    congr 2
    rw [show (2 ^ w : Int) + v = v + (2 ^ w) * 1 by ring, Int.add_mul_emod_self_left]
  · simp [h]

/-- C3: for `w ≥ 1` and any integer `v`, `_int_to_bin v w` is a string of
exactly `w` characters over `{0,1}` whose unsigned value is `v mod 2 ^ w`
(negatives wrap, overwide values truncate); consequently decoding it as a
`w`-bit two's-complement signed integer is congruent to `v` mod `2 ^ w`
whenever `-2 ^ (w-1) ≤ v < 2 ^ w`. -/
theorem c3_int_to_bin (w : Nat) (_hw : 1 ≤ w) (v : Int) :
    (int_to_bin v w).length = w ∧
    ((int_to_bin v w).toList.all isBin01) = true ∧
    (decodeUnsigned (int_to_bin v w).toList : Int) = v % (2 ^ w : Int) ∧
    (-(2 ^ (w - 1) : Int) ≤ v → v < (2 ^ w : Int) →
      (2 ^ w : Int) ∣ (decodeSigned w (int_to_bin v w).toList - v)) := by
  obtain ⟨hlt, hcast⟩ := emod_toNat_facts v w
  have hdec : (decodeUnsigned (toBits (v % (2 ^ w : Int)).toNat w) : Int) =
      v % (2 ^ w : Int) := by
    rw [decodeUnsigned_toBits, Nat.mod_eq_of_lt hlt, hcast]
  rw [int_to_bin_masked]
  refine ⟨toBits_length w _, toBits_all01 w _, hdec, ?_⟩
  intro _ _
  show (2 ^ w : Int) ∣ decodeSigned w (toBits (v % (2 ^ w : Int)).toNat w) - v
  unfold decodeSigned
  rw [hdec]
  have hsub : (2 ^ w : Int) ∣ v % (2 ^ w : Int) - v := by
    have := Int.emod_add_ediv v (2 ^ w : Int)
    exact ⟨-(v / (2 ^ w : Int)), by linarith⟩
  by_cases hhead : ((toBits (v % (2 ^ w : Int)).toNat w).headD '0') = '1'
  · simp only [hhead, if_true]
    have he : v % (2 ^ w : Int) - (2 ^ w : Int) - v =
        (v % (2 ^ w : Int) - v) + (2 ^ w : Int) * (-1) := by ring
    rw [he]
    exact dvd_add hsub (Dvd.intro _ rfl)
  · simp only [hhead, if_false]
    simpa using hsub

/-- C3 witness: the theorem applied at `w = 4`, `v = -3`
(`-2 ^ 3 ≤ -3 < 2 ^ 4`). -/
theorem c3_int_to_bin_witness :
    (int_to_bin (-3) 4).length = 4 ∧
    (2 ^ 4 : Int) ∣ (decodeSigned 4 (int_to_bin (-3) 4).toList - (-3)) := by
  obtain ⟨h1, _, _, h4⟩ := c3_int_to_bin 4 (by decide) (-3)
  exact ⟨h1, h4 (by decide) (by decide)⟩

/- ## Symbol-table lemmas (first pass of the code generator) -/

theorem lookup_append (k : String) (t1 t2 : List (String × Nat)) :
    List.lookup k (t1 ++ t2) = (List.lookup k t1).or (List.lookup k t2) := by
  induction t1 with
  | nil => simp
  | cons p t1 ih =>
    by_cases h : k == p.1
    · simp [List.lookup, h]
    · simp only [List.cons_append, List.lookup, h]
      exact ih

/-- A successful first pass only ever appends bindings, so existing
bindings survive (first-match lookup is unaffected by later, distinct
keys, and a duplicate key raises instead of rebinding). -/
theorem resolve_labels_go_preserves (p : List Stmt) :
    ∀ (a : Nat) (t res : List (String × Nat)) (k : String) (v : Nat),
      resolve_labels_go a t p = .ok res →
      tableGet t k = some v → tableGet res k = some v := by
  induction p with
  | nil =>
    intro a t res k v hok hget
    simp only [resolve_labels_go] at hok
    cases hok
    exact hget
  | cons s rest ih =>
    intro a t res k v hok hget
    match s with
    | .label name line col =>
      simp only [resolve_labels_go] at hok
      by_cases hc : tableContains t name
      · simp [hc] at hok
      · simp only [hc, Bool.false_eq_true, if_false] at hok
        refine ih a (t ++ [(name, a)]) res k v hok ?_
        unfold tableGet at hget ⊢
        rw [lookup_append, hget]
        rfl
    | .instruction mn args line col =>
      simp only [resolve_labels_go] at hok
      by_cases hl : a + 1 > MAX_PROGRAM_SIZE
      · simp [hl] at hok
      · simp only [hl, if_false] at hok
        exact ih (a + 1) t res k v hok hget

/-- C4 core: after a successful first pass, each label is bound to the
start address plus the number of instruction statements strictly before
it. -/
theorem resolve_labels_go_label_addr (p : List Stmt) :
    ∀ (a : Nat) (t res : List (String × Nat)),
      resolve_labels_go a t p = .ok res →
      ∀ (i : Nat) (h : i < p.length) (name : String) (line col : Nat),
        p.get ⟨i, h⟩ = Stmt.label name line col →
        tableGet res name = some (a + countInstr (p.take i)) := by
  induction p with
  | nil => intro a t res _ i h; simp at h
  | cons s rest ih =>
    intro a t res hok i h name line col hi
    match s with
    | .label name2 line2 col2 =>
      simp only [resolve_labels_go] at hok
      by_cases hc : tableContains t name2
      · simp [hc] at hok
      · simp only [hc, Bool.false_eq_true, if_false] at hok
        match i with
        | 0 =>
          cases hi
          simp only [List.take_zero, countInstr, List.filter_nil,
            List.length_nil, Nat.add_zero]
          refine resolve_labels_go_preserves rest a _ res name a hok ?_
          have hnone : List.lookup name t = none := by
            unfold tableContains tableGet at hc
            cases he : List.lookup name t with
            | none => rfl
            | some _ => rw [he] at hc; simp at hc
          unfold tableGet
          rw [lookup_append, hnone]
          simp [List.lookup]
        | i + 1 =>
          have := ih a (t ++ [(name2, a)]) res hok i (by simpa using h) name line col
            (by simpa using hi)
          simpa [countInstr, isInstrStmt] using this
    | .instruction mn args line2 col2 =>
      simp only [resolve_labels_go] at hok
      by_cases hl : a + 1 > MAX_PROGRAM_SIZE
      · simp [hl] at hok
      · simp only [hl, if_false] at hok
        match i with
        | 0 => cases hi
        | i + 1 =>
          have := ih (a + 1) t res hok i (by simpa using h) name line col
            (by simpa using hi)
          rw [this]
          simp only [List.take_succ_cons, countInstr, List.filter_cons,
            isInstrStmt, if_true, List.length_cons]
          congr 1
          omega

/-- The first pass succeeds when the program's labels are fresh and
mutually distinct and the instruction count stays within bounds. -/
theorem resolve_labels_go_ok (p : List Stmt) :
    ∀ (a : Nat) (t : List (String × Nat)),
      (∀ n ∈ labelNames p, tableContains t n = false) →
      (labelNames p).Nodup →
      a + countInstr p ≤ MAX_PROGRAM_SIZE →
      ∃ res, resolve_labels_go a t p = .ok res := by
  induction p with
  | nil => intro a t _ _ _; exact ⟨t, rfl⟩
  | cons s rest ih =>
    intro a t hfresh hnd hlen
    match s with
    | .label name line col =>
      have hn : name ∈ labelNames (Stmt.label name line col :: rest) := by
        simp [labelNames]
      have hnames : labelNames (Stmt.label name line col :: rest) =
          name :: labelNames rest := by simp [labelNames]
      rw [hnames] at hnd
      have hc := hfresh name hn
      simp only [resolve_labels_go, hc, Bool.false_eq_true, if_false]
      refine ih a (t ++ [(name, a)]) ?_ (List.Nodup.of_cons hnd) ?_
      · intro n hnmem
        have hnt : tableContains t n = false := by
          refine hfresh n ?_
          rw [hnames]
          exact List.mem_cons_of_mem _ hnmem
        have hne : n ≠ name := by
          intro he
          subst he
          exact (List.nodup_cons.mp hnd).1 hnmem
        unfold tableContains tableGet at hnt ⊢
        rw [lookup_append]
        cases he : List.lookup n t with
        | some v => rw [he] at hnt; simp at hnt
        | none =>
          simp only [Option.none_or]
          have hb : (n == name) = false := beq_eq_false_iff_ne.mpr hne
          simp [List.lookup, hb]
      · simpa [countInstr, isInstrStmt] using hlen
    | .instruction mn args line col =>
      have hlt : ¬ a + 1 > MAX_PROGRAM_SIZE := by
        have : countInstr (Stmt.instruction mn args line col :: rest) =
            countInstr rest + 1 := by simp [countInstr, isInstrStmt]
        omega
      simp only [resolve_labels_go, hlt, if_false]
      refine ih (a + 1) t ?_ ?_ ?_
      · intro n hn
        refine hfresh n ?_
        simp [labelNames] at hn ⊢
        exact hn
      · simpa [labelNames] using hnd
      · have : countInstr (Stmt.instruction mn args line col :: rest) =
            countInstr rest + 1 := by simp [countInstr, isInstrStmt]
        omega

/-- When the instruction count overruns, the first pass stops with
`ProgramTooLongError` carrying the overflowing count and the line of the
first instruction past the limit. -/
theorem resolve_labels_go_too_long (p : List Stmt) :
    ∀ (a : Nat) (t : List (String × Nat)),
      (∀ n ∈ labelNames p, tableContains t n = false) →
      (labelNames p).Nodup →
      a + countInstr p > MAX_PROGRAM_SIZE →
      a ≤ MAX_PROGRAM_SIZE →
      ∃ s, (p.filter isInstrStmt).get? (MAX_PROGRAM_SIZE - a) = some s ∧
        resolve_labels_go a t p =
          .error (.programTooLongError (MAX_PROGRAM_SIZE + 1) (stmtLine s)) := by
  induction p with
  | nil =>
    intro a t _ _ hgt hle
    simp [countInstr] at hgt
    omega
  | cons s rest ih =>
    intro a t hfresh hnd hgt hle
    match s with
    | .label name line col =>
      have hn : name ∈ labelNames (Stmt.label name line col :: rest) := by
        simp [labelNames]
      have hnames : labelNames (Stmt.label name line col :: rest) =
          name :: labelNames rest := by simp [labelNames]
      rw [hnames] at hnd
      have hc := hfresh name hn
      simp only [resolve_labels_go, hc, Bool.false_eq_true, if_false]
      have hcount : countInstr (Stmt.label name line col :: rest) = countInstr rest := by
        simp [countInstr, isInstrStmt]
      have hfilter : (Stmt.label name line col :: rest).filter isInstrStmt =
          rest.filter isInstrStmt := by simp [isInstrStmt]
      rw [hfilter]
      refine ih a (t ++ [(name, a)]) ?_ (List.Nodup.of_cons hnd) (by omega) hle
      intro n hnmem
      have hnt : tableContains t n = false := by
        refine hfresh n ?_
        rw [hnames]
        exact List.mem_cons_of_mem _ hnmem
      have hne : n ≠ name := by
        intro he
        subst he
        exact (List.nodup_cons.mp hnd).1 hnmem
      unfold tableContains tableGet at hnt ⊢
      rw [lookup_append]
      cases he : List.lookup n t with
      | some v => rw [he] at hnt; simp at hnt
      | none =>
        simp only [Option.none_or]
        have hb : (n == name) = false := beq_eq_false_iff_ne.mpr hne
        simp [List.lookup, hb]
    | .instruction mn args line col =>
      have hcount : countInstr (Stmt.instruction mn args line col :: rest) =
          countInstr rest + 1 := by simp [countInstr, isInstrStmt]
      have hfilter : (Stmt.instruction mn args line col :: rest).filter isInstrStmt =
          Stmt.instruction mn args line col :: rest.filter isInstrStmt := by
        simp [isInstrStmt]
      by_cases hb : a + 1 > MAX_PROGRAM_SIZE
      · have ha : a = MAX_PROGRAM_SIZE := by omega
        subst ha
        refine ⟨Stmt.instruction mn args line col, ?_, ?_⟩
        · rw [hfilter]
          simp
        · simp [resolve_labels_go, hb, stmtLine]
      · simp only [resolve_labels_go, hb, if_false]
        obtain ⟨s2, hs2, herr⟩ := ih (a + 1) t
          (by intro n hn; exact hfresh n (by simpa [labelNames] using hn))
          (by simpa [labelNames] using hnd) (by omega) (by omega)
        refine ⟨s2, ?_, herr⟩
        rw [hfilter]
        have hidx : MAX_PROGRAM_SIZE - a = (MAX_PROGRAM_SIZE - (a + 1)) + 1 := by omega
        rw [hidx]
        simpa using hs2

/-- Every label defined in the program is bound after a successful first
pass (used for address-operand lookups). -/
theorem resolve_labels_defined (program : List Stmt) (table : List (String × Nat))
    (hok : resolve_labels program = .ok table) (name : String)
    (hmem : name ∈ labelNames program) : (tableGet table name).isSome = true := by
  unfold labelNames at hmem
  rw [List.mem_filterMap] at hmem
  obtain ⟨s, hs, hf⟩ := hmem
  match s, hf with
  | .label n2 line col, hf =>
    have hn2 : n2 = name := by
      simpa using hf
    subst hn2
    obtain ⟨⟨iv, hiv⟩, hgeti⟩ := List.mem_iff_get.mp hs
    have := resolve_labels_go_label_addr program 0 [] table hok iv hiv n2 line col hgeti
    simp [this]

/-- C4: after a successful label-resolution pass on a program with no
duplicate labels and at most `MAX_PROGRAM_SIZE` instructions, each label
name is mapped to the number of `Instruction` statements strictly
preceding its `Label` statement (labels themselves are not counted); a
label before any instruction gets address 0. -/
theorem c4_label_addresses (program : List Stmt) (table : List (String × Nat))
    (_hnd : noDupLabels program) (_hlen : countInstr program ≤ MAX_PROGRAM_SIZE)
    (hok : resolve_labels program = .ok table) :
    ∀ (i : Nat) (h : i < program.length) (name : String) (line col : Nat),
      program.get ⟨i, h⟩ = Stmt.label name line col →
      tableGet table name = some (countInstr (program.take i)) := by
  intro i h name line col hi
  simpa using resolve_labels_go_label_addr program 0 [] table hok i h name line col hi

/-- C4 witness: on `[.a:, MOV, .b:, ADD]` the pass succeeds and the
theorem yields address 0 for `.a` (no preceding instruction) and 1 for
`.b`. -/
theorem c4_label_addresses_witness :
    tableGet [(".a", 0), (".b", 1)] ".a" = some 0 ∧
    tableGet [(".a", 0), (".b", 1)] ".b" = some 1 := by
  have h1 := c4_label_addresses
    [Stmt.label ".a" 1 1, Stmt.instruction "MOV" [] 2 1,
     Stmt.label ".b" 3 1, Stmt.instruction "ADD" [] 4 1]
    [(".a", 0), (".b", 1)] (by simp [noDupLabels, labelNames]) (by decide) rfl
  constructor
  · have := h1 0 (by decide) ".a" 1 1 rfl
    simpa using this
  · have := h1 2 (by decide) ".b" 3 1 rfl
    simpa using this

/-- C7: under distinct label names, label resolution succeeds whenever the
program has at most 1024 instructions (in particular at exactly 1024) and
raises `ProgramTooLong` as soon as the running count exceeds 1024 — at the
1025th instruction, reporting the overflowing count 1025 and that
instruction's line. -/
theorem c7_program_size_boundary (program : List Stmt) (hnd : noDupLabels program) :
    (countInstr program ≤ MAX_PROGRAM_SIZE →
      ∃ t, resolve_labels program = .ok t) ∧
    (countInstr program > MAX_PROGRAM_SIZE →
      ∃ s, (program.filter isInstrStmt).get? MAX_PROGRAM_SIZE = some s ∧
        resolve_labels program =
          .error (.programTooLongError (MAX_PROGRAM_SIZE + 1) (stmtLine s))) := by
  constructor
  · intro hlen
    exact resolve_labels_go_ok program 0 [] (fun n _ => rfl) hnd (by omega)
  · intro hgt
    have := resolve_labels_go_too_long program 0 [] (fun n _ => rfl) hnd
      (by omega) (by omega)
    simpa [resolve_labels] using this

/-- C7 witness: a program of exactly 1024 instructions resolves, and
adding a 1025th makes the pass fail with `ProgramTooLong 1025` at that
instruction's line. -/
theorem c7_program_size_boundary_witness :
    (∃ t, resolve_labels (List.replicate 1024 (Stmt.instruction "NOP" [] 7 1)) =
      .ok t) ∧
    resolve_labels (List.replicate 1025 (Stmt.instruction "NOP" [] 7 1)) =
      .error (.programTooLongError 1025 7) := by
  have hnd1 : noDupLabels (List.replicate 1024 (Stmt.instruction "NOP" [] 7 1)) := by
    simp [noDupLabels, labelNames, List.filterMap_replicate]
  have hnd2 : noDupLabels (List.replicate 1025 (Stmt.instruction "NOP" [] 7 1)) := by
    simp [noDupLabels, labelNames, List.filterMap_replicate]
  have hc1 : countInstr (List.replicate 1024 (Stmt.instruction "NOP" [] 7 1)) = 1024 := by
    simp [countInstr, isInstrStmt, List.filter_replicate]
  have hc2 : countInstr (List.replicate 1025 (Stmt.instruction "NOP" [] 7 1)) = 1025 := by
    simp [countInstr, isInstrStmt, List.filter_replicate]
  constructor
  · exact (c7_program_size_boundary _ hnd1).1 (by rw [hc1]; decide)
  · obtain ⟨s, hs, herr⟩ := (c7_program_size_boundary _ hnd2).2
      (by rw [hc2]; decide)
    have hfilter : (List.replicate 1025 (Stmt.instruction "NOP" [] 7 1)).filter
        isInstrStmt = List.replicate 1025 (Stmt.instruction "NOP" [] 7 1) := by
      simp [List.filter_replicate, isInstrStmt]
    rw [hfilter] at hs
    have hsval : s = Stmt.instruction "NOP" [] 7 1 := by
      have hmem := List.get?_mem hs
      exact List.eq_of_mem_replicate hmem
    rw [hsval] at herr
    exact herr

/- ## C8: operand validation -/

/-- C8 counterexample: the tokenizer accepts the decimal literal `007`
(`-?[0-9]+`), but `int("007", 0)` is a `ValueError` under Python's base-0
rules, so `validate_operand` on a `DEC "007"` token against a `num` spec
with range `[0, 1000]` crashes with an uncaught `ValueError` — neither
`ValueOutOfRange` (7 is in range, so the claim demands no error) nor any
other typed assembler error. -/
theorem c8_validate_operand_counterexample :
    validate_operand ⟨"DEC", "007", 3, 9⟩ ⟨"num", some [0, 1000], none⟩ =
      .error .valueError := rfl

/-- C8 (amended with parse success): for operands whose literal parses,
`validate_operand` raises `InvalidOperand` exactly on a token-kind
mismatch, `InvalidRegister` exactly outside `[0, 7]`, `ValueOutOfRange`
exactly outside the spec's declared (untransformed) `[min, max]`,
`InvalidAddress` exactly outside `[0, 1023]` for numeric address tokens,
always accepts `IDENT` address tokens, and raises nothing otherwise. -/
theorem c8_validate_operand (operand : Token) (ospec : OperandSpec) :
    (ospec.type = "reg" →
      (operand.type ≠ "REGISTER" →
        validate_operand operand ospec =
          .error (.invalidOperandError "register" operand.type
            operand.line operand.start_column)) ∧
      (operand.type = "REGISTER" → ∀ n, get_register_number operand = some n →
        validate_operand operand ospec =
          if n < 0 ∨ 7 < n then
            .error (.invalidRegisterError n operand.line operand.start_column)
          else .ok ())) ∧
    (ospec.type = "num" → ∀ lo hi tl, ospec.range = some (lo :: hi :: tl) →
      (¬ (operand.type = "HEX" ∨ operand.type = "BIN" ∨ operand.type = "DEC") →
        validate_operand operand ospec =
          .error (.invalidOperandError "numeric" operand.type
            operand.line operand.start_column)) ∧
      ((operand.type = "HEX" ∨ operand.type = "BIN" ∨ operand.type = "DEC") →
        ∀ n, get_number operand = some n →
        validate_operand operand ospec =
          if n < lo ∨ hi < n then
            .error (.valueOutOfRangeError n operand.line operand.start_column)
          else .ok ())) ∧
    (ospec.type = "adr" →
      (¬ (operand.type = "IDENT" ∨ operand.type = "HEX" ∨ operand.type = "BIN" ∨
          operand.type = "DEC") →
        validate_operand operand ospec =
          .error (.invalidOperandError "address" operand.type
            operand.line operand.start_column)) ∧
      ((operand.type = "HEX" ∨ operand.type = "BIN" ∨ operand.type = "DEC") →
        ∀ n, get_number operand = some n →
        validate_operand operand ospec =
          if n < 0 ∨ 1023 < n then
            .error (.invalidAddressError operand.line operand.start_column)
          else .ok ()) ∧
      (operand.type = "IDENT" → validate_operand operand ospec = .ok ())) := by
  refine ⟨?_, ?_, ?_⟩
  · intro ht
    constructor
    · intro hty
      simp [validate_operand, ht, is_register, hty]
    · intro hty n hn
      have hreg : is_register operand = true := by simp [is_register, hty]
      simp only [validate_operand, ht, if_true, hreg, Bool.true_eq_false,
        not_true, if_false, hn]
      have h8 : (NUM_REGISTERS : Int) = 8 := by norm_num [NUM_REGISTERS]
      rw [h8]
      by_cases hr : 0 ≤ n ∧ n < (8 : Int)
      · rw [if_neg (not_not_intro hr)]
        conv_rhs => rw [if_neg (show ¬ (n < 0 ∨ 7 < n) from by omega)]
      · rw [if_pos hr]
        conv_rhs => rw [if_pos (show (n < 0 ∨ 7 < n) from by omega)]
  · intro ht lo hi tl hrange
    have htr : ¬ ospec.type = "reg" := by rw [ht]; decide
    constructor
    · intro hty
      have hnum : is_number operand = false := by
        simp [is_number]
        push_neg at hty
        exact ⟨hty.1, hty.2.1, hty.2.2⟩
      simp [validate_operand, htr, ht, hnum]
    · intro hty n hn
      have hnum : is_number operand = true := by simp [is_number, hty]
      simp only [validate_operand, htr, if_false, ht, if_true, hnum,
        Bool.true_eq_false, not_true, hn, hrange]
      have hir : is_in_range n (lo :: hi :: tl) = .ok (decide (lo ≤ n ∧ n ≤ hi)) := by
        simp [is_in_range]
      rw [hir]
      by_cases hr : lo ≤ n ∧ n ≤ hi
      · rw [decide_eq_true hr]
        conv_rhs => rw [if_neg (show ¬ (n < lo ∨ hi < n) from by omega)]
        rfl
      · rw [decide_eq_false hr]
        conv_rhs => rw [if_pos (show (n < lo ∨ hi < n) from by omega)]
        rfl
  · intro ht
    have htr : ¬ ospec.type = "reg" := by rw [ht]; decide
    have htn : ¬ ospec.type = "num" := by rw [ht]; decide
    refine ⟨?_, ?_, ?_⟩
    · intro hty
      have hadr : is_address operand = false := by
        push_neg at hty
        simp [is_address, is_number, hty.1, hty.2.1, hty.2.2.1, hty.2.2.2]
      simp [validate_operand, htr, htn, ht, hadr]
    · intro hty n hn
      have hnum : is_number operand = true := by simp [is_number, hty]
      have hadr : is_address operand = true := by simp [is_address, hnum]
      have e1 : (("adr" : String) = "reg") = False := by simp
      have e2 : (("adr" : String) = "num") = False := by simp
      simp only [validate_operand, ht, e1, e2, if_false, if_true, hadr,
        Bool.true_eq_false, not_true, hnum, hn]
      have hm : (MAX_PROGRAM_SIZE : Int) = 1024 := by norm_num [MAX_PROGRAM_SIZE]
      rw [hm]
      by_cases hr : 0 ≤ n ∧ n < (1024 : Int)
      · rw [if_neg (not_not_intro hr)]
        conv_rhs => rw [if_neg (show ¬ (n < 0 ∨ 1023 < n) from by omega)]
      · rw [if_pos hr]
        conv_rhs => rw [if_pos (show (n < 0 ∨ 1023 < n) from by omega)]
    · intro hty
      have hadr : is_address operand = true := by simp [is_address, hty]
      have hnum : is_number operand = false := by
        have h1 : operand.type ≠ "HEX" := by rw [hty]; decide
        have h2 : operand.type ≠ "BIN" := by rw [hty]; decide
        have h3 : operand.type ≠ "DEC" := by rw [hty]; decide
        simp [is_number, h1, h2, h3]
      simp [validate_operand, htr, htn, ht, hadr, hnum]

/-- C8 witness: the register clause applied at `REGISTER "R9"` (out of
`[0,7]`) and the address clause at `IDENT ".loop"`. -/
theorem c8_validate_operand_witness :
    validate_operand ⟨"REGISTER", "R9", 2, 3⟩ ⟨"reg", none, none⟩ =
      .error (.invalidRegisterError 9 2 3) ∧
    validate_operand ⟨"IDENT", ".loop", 2, 3⟩ ⟨"adr", none, none⟩ = .ok () := by
  constructor
  · have h := (c8_validate_operand ⟨"REGISTER", "R9", 2, 3⟩
      ⟨"reg", none, none⟩).1 rfl |>.2 rfl 9 rfl
    simpa using h
  · exact ((c8_validate_operand ⟨"IDENT", ".loop", 2, 3⟩
      ⟨"adr", none, none⟩).2.2 rfl).2.2 rfl

/- ## C9: mnemonic case-insensitivity -/

/-- Two statements that agree except possibly in the letter case of an
instruction mnemonic (equal up to `str.upper()`). -/
def mnemonicCaseEquivStmt : Stmt → Stmt → Prop
  | .label n1 l1 c1, .label n2 l2 c2 => n1 = n2 ∧ l1 = l2 ∧ c1 = c2
  | .instruction m1 a1 l1 c1, .instruction m2 a2 l2 c2 =>
    pyUpper m1 = pyUpper m2 ∧ a1 = a2 ∧ l1 = l2 ∧ c1 = c2
  | _, _ => False

/-- Two programs that differ only in the letter case of instruction
mnemonics. -/
def mnemonicCaseEquiv (p1 p2 : List Stmt) : Prop :=
  List.Forall₂ mnemonicCaseEquivStmt p1 p2

theorem validate_instruction_upper (catalog : List InstrSpec) (m1 m2 : String)
    (args : List Token) (l c : Nat) (h : pyUpper m1 = pyUpper m2) :
    validate_instruction catalog m1 args l c =
      validate_instruction catalog m2 args l c := by
  unfold validate_instruction
  rw [h]

theorem generate_instruction_upper (catalog : List InstrSpec)
    (table : List (String × Nat)) (m1 m2 : String) (args : List Token)
    (h : pyUpper m1 = pyUpper m2) :
    generate_instruction catalog table m1 args =
      generate_instruction catalog table m2 args := by
  unfold generate_instruction
  rw [h]

theorem resolve_labels_go_equiv {p1 p2 : List Stmt} (h : mnemonicCaseEquiv p1 p2) :
    ∀ a t, resolve_labels_go a t p1 = resolve_labels_go a t p2 := by
  induction h with
  | nil => intro a t; rfl
  | @cons s1 s2 r1 r2 hpair hrest ih =>
    intro a t
    match s1, s2, hpair with
    | .label n1 l1 c1, .label n2 l2 c2, hpair =>
      obtain ⟨hn, hl, hc⟩ := hpair
      subst hn; subst hl; subst hc
      simp only [resolve_labels_go]
      by_cases hc2 : tableContains t n1 <;> simp [hc2, ih]
    | .instruction m1 a1 l1 c1, .instruction m2 a2 l2 c2, hpair =>
      obtain ⟨hm, ha, hl, hc⟩ := hpair
      subst ha; subst hl; subst hc
      simp only [resolve_labels_go]
      by_cases hb : a + 1 > MAX_PROGRAM_SIZE <;> simp [hb, ih]

theorem validate_program_equiv (catalog : List InstrSpec) {p1 p2 : List Stmt}
    (h : mnemonicCaseEquiv p1 p2) :
    validate_program catalog p1 = validate_program catalog p2 := by
  induction h with
  | nil => rfl
  | @cons s1 s2 r1 r2 hpair hrest ih =>
    match s1, s2, hpair with
    | .label n1 l1 c1, .label n2 l2 c2, hpair =>
      simpa [validate_program] using ih
    | .instruction m1 a1 l1 c1, .instruction m2 a2 l2 c2, hpair =>
      obtain ⟨hm, ha, hl, hc⟩ := hpair
      subst ha; subst hl; subst hc
      simp only [validate_program]
      rw [validate_instruction_upper catalog m1 m2 a1 l1 c1 hm, ih]

theorem generate_code_go_equiv (catalog : List InstrSpec)
    (table : List (String × Nat)) {p1 p2 : List Stmt}
    (h : mnemonicCaseEquiv p1 p2) :
    generate_code_go catalog table p1 = generate_code_go catalog table p2 := by
  induction h with
  | nil => rfl
  | @cons s1 s2 r1 r2 hpair hrest ih =>
    match s1, s2, hpair with
    | .label n1 l1 c1, .label n2 l2 c2, hpair =>
      obtain ⟨hn, hl, hc⟩ := hpair
      subst hn; subst hl; subst hc
      simpa [generate_code_go] using ih
    | .instruction m1 a1 l1 c1, .instruction m2 a2 l2 c2, hpair =>
      obtain ⟨hm, ha, hl, hc⟩ := hpair
      subst ha; subst hl; subst hc
      simp only [generate_code_go]
      rw [generate_instruction_upper catalog table m1 m2 a1 hm, ih]

/-- C9: validation and code generation depend on an instruction mnemonic
only through its uppercased form — two programs differing only in
mnemonic letter case validate identically and produce identical machine
code. -/
theorem c9_mnemonic_case_insensitive (catalog : List InstrSpec)
    (p1 p2 : List Stmt) (h : mnemonicCaseEquiv p1 p2) :
    validate_program catalog p1 = validate_program catalog p2 ∧
    generate_code catalog p1 = generate_code catalog p2 := by
  refine ⟨validate_program_equiv catalog h, ?_⟩
  unfold generate_code resolve_labels
  rw [resolve_labels_go_equiv h 0 []]
  cases hres : resolve_labels_go 0 [] p2 with
  | error e => rfl
  | ok table =>
    show generate_code_go catalog table p1 = generate_code_go catalog table p2
    exact generate_code_go_equiv catalog table h

/-- C9 witness: `mov R1, 5` and `MOV R1, 5` (as parsed programs) validate
identically and assemble identically against the scenario catalog. -/
theorem c9_mnemonic_case_insensitive_witness :
    validate_program catalogC1
        [Stmt.instruction "mov" [⟨"REGISTER", "R1", 1, 5⟩, ⟨"DEC", "5", 1, 9⟩] 1 1] =
      validate_program catalogC1
        [Stmt.instruction "MOV" [⟨"REGISTER", "R1", 1, 5⟩, ⟨"DEC", "5", 1, 9⟩] 1 1] ∧
    generate_code catalogC1
        [Stmt.instruction "mov" [⟨"REGISTER", "R1", 1, 5⟩, ⟨"DEC", "5", 1, 9⟩] 1 1] =
      generate_code catalogC1
        [Stmt.instruction "MOV" [⟨"REGISTER", "R1", 1, 5⟩, ⟨"DEC", "5", 1, 9⟩] 1 1] := by
  exact c9_mnemonic_case_insensitive catalogC1 _ _
    (List.Forall₂.cons ⟨rfl, rfl, rfl, rfl⟩ List.Forall₂.nil)

/- ## C2: shape of the generated code -/

theorem string_mk_toList (s : String) : (⟨s.toList⟩ : String) = s := by
  cases s
  rfl

/-- Valid transformation names always apply successfully. -/
theorem transform_operand_valid (ts : List String) :
    ∀ num : Int, ts.all (· ∈ VALID_TRANSFORMATIONS) = true →
    ∃ v, transform_operand num (some ts) = .ok v := by
  induction ts with
  | nil => intro num _; exact ⟨num, rfl⟩
  | cons t ts ih =>
    intro num hall
    simp only [List.all_cons, Bool.and_eq_true, decide_eq_true_eq] at hall
    obtain ⟨ht, hts⟩ := hall
    have hsome : ∃ f, TRANSFORMATIONS t = some f := by
      simp only [VALID_TRANSFORMATIONS, List.mem_cons, List.not_mem_nil, or_false] at ht
      rcases ht with h | h | h <;> subst h <;> exact ⟨_, rfl⟩
    obtain ⟨f, hf⟩ := hsome
    obtain ⟨v, hv⟩ := ih (f num) (by simpa using hts)
    refine ⟨v, ?_⟩
    simp only [transform_operand, List.foldlM_cons, hf] at hv ⊢
    simpa [transform_operand] using hv

theorem runLength_le (l : List Char) : runLength l ≤ l.length := by
  induction l with
  | nil => simp [runLength]
  | cons c t ih =>
    by_cases h : c = '_'
    · simpa [runLength, h] using ih
    · simp [runLength, h]

theorem findRun_bound (c : Char) (l : List Char) :
    ∀ p n, findRun c l = some (p, n) → p + n ≤ l.length := by
  induction l with
  | nil => intro p n h; simp [findRun] at h
  | cons a t ih =>
    intro p n h
    simp only [findRun] at h
    by_cases ha : a = c
    · rw [if_pos ha] at h
      cases h
      have hr := runLength_le t
      have hl : (a :: t).length = t.length + 1 := rfl
      omega
    · rw [if_neg ha] at h
      cases he : findRun c t with
      | none => rw [he] at h; simp at h
      | some pr =>
        rw [he] at h
        have hp : pr.1 + 1 = p ∧ pr.2 = n := by simpa using h
        obtain ⟨hp1, hp2⟩ := hp
        have hb := ih pr.1 pr.2 (by rw [he])
        have hl : (a :: t).length = t.length + 1 := rfl
        omega

/-- `findRun` distributes over an append whose left part avoids the
letter. -/
theorem findRun_append (c : Char) (l1 l2 : List Char)
    (h : ∀ x ∈ l1, x ≠ c) :
    findRun c (l1 ++ l2) =
      (findRun c l2).map (fun p => (l1.length + p.1, p.2)) := by
  induction l1 with
  | nil => simp
  | cons a t ih =>
    have ha : a ≠ c := h a (by simp)
    simp only [List.cons_append, findRun, if_neg ha, List.append_eq]
    rw [ih (fun x hx => h x (by simp [hx]))]
    cases findRun c l2 with
    | none => rfl
    | some pr =>
      show some ((t.length + pr.1) + 1, pr.2) = some ((a :: t).length + pr.1, pr.2)
      have hl : (a :: t).length = t.length + 1 := rfl
      rw [hl]
      have he : t.length + pr.1 + 1 = t.length + 1 + pr.1 := by omega
      rw [he]

/-- A `0`/`1` character is not a placeholder letter. -/
theorem isBin01_ne_placeholder (x : Char) (hx : isBin01 x = true) (c : Char)
    (hc : c = 'R' ∨ c = 'N' ∨ c = 'A') : x ≠ c := by
  simp only [isBin01, decide_eq_true_eq, Bool.or_eq_true] at hx
  rcases hx with h | h <;> rcases hc with h2 | h2 | h2 <;> subst h <;> subst h2 <;> decide

theorem foldl_dictGet_mem (k : String) :
    ∀ (catalog : List InstrSpec) (acc : Option InstrSpec) (spec : InstrSpec),
      catalog.foldl (fun acc it => if it.mnemonic = k then some it else acc) acc =
        some spec →
      spec ∈ catalog ∨ acc = some spec := by
  intro catalog
  induction catalog with
  | nil => intro acc spec h; exact Or.inr h
  | cons e rest ih =>
    intro acc spec h
    simp only [List.foldl_cons] at h
    rcases ih _ spec h with h1 | h1
    · exact Or.inl (List.mem_cons_of_mem e h1)
    · by_cases hm : e.mnemonic = k
      · rw [if_pos hm] at h1
        cases h1
        exact Or.inl (List.mem_cons_self e rest)
      · rw [if_neg hm] at h1
        exact Or.inr h1

theorem dictGet_mem_of_some (catalog : List InstrSpec) (k : String)
    (spec : InstrSpec) (h : dictGet catalog k = some spec) : spec ∈ catalog := by
  rcases foldl_dictGet_mem k catalog none spec h with h1 | h1
  · exact h1
  · cases h1

/-- A validated program validates each of its instruction lines. -/
theorem validate_program_ok (catalog : List InstrSpec) :
    ∀ program : List Stmt, validate_program catalog program = .ok () →
    ∀ m args l col, Stmt.instruction m args l col ∈ program →
      validate_instruction catalog m args l col = .ok () := by
  intro program
  induction program with
  | nil => intro _ m args l col hmem; simp at hmem
  | cons s rest ih =>
    intro hok m args l col hmem
    match s with
    | .label n l2 c2 =>
      rcases List.mem_cons.mp hmem with h1 | h1
      · cases h1
      · exact ih hok m args l col h1
    | .instruction m2 args2 l2 c2 =>
      simp only [validate_program] at hok
      cases hv : validate_instruction catalog m2 args2 l2 c2 with
      | error e =>
        rw [hv] at hok
        exact Except.noConfusion hok
      | ok u =>
        cases u
        rw [hv] at hok
        rcases List.mem_cons.mp hmem with h1 | h1
        · injection h1 with e1 e2 e3 e4
          subst e1; subst e2; subst e3; subst e4
          exact hv
        · exact ih hok m args l col h1

/-- Unpacking a successful `validate_instruction`. -/
theorem validate_instruction_ok (catalog : List InstrSpec) (m : String)
    (args : List Token) (l col : Nat)
    (h : validate_instruction catalog m args l col = .ok ()) :
    ∃ spec, dictGet catalog (pyUpper m) = some spec ∧
      args.length = spec.operands.length ∧
      validate_operand_list (args.zip spec.operands) = .ok () := by
  unfold validate_instruction at h
  cases hd : dictGet catalog (pyUpper m) with
  | none =>
    rw [hd] at h
    exact Except.noConfusion h
  | some spec =>
    rw [hd] at h
    dsimp only at h
    by_cases hl : args.length = spec.operands.length
    · rw [if_neg (by simpa using hl)] at h
      exact ⟨spec, rfl, hl, h⟩
    · rw [if_pos (by simpa using hl)] at h
      exact Except.noConfusion h

/-- A successful operand-list validation validates each pair. -/
theorem validate_operand_list_ok :
    ∀ pairs : List (Token × OperandSpec), validate_operand_list pairs = .ok () →
    ∀ pr ∈ pairs, validate_operand pr.1 pr.2 = .ok () := by
  intro pairs
  induction pairs with
  | nil => intro _ pr hpr; simp at hpr
  | cons p rest ih =>
    intro hok pr hpr
    have hok2 : (do
        validate_operand p.1 p.2
        validate_operand_list rest) = Except.ok () := hok
    cases hv : validate_operand p.1 p.2 with
    | error e =>
      rw [hv] at hok2
      exact Except.noConfusion hok2
    | ok u =>
      cases u
      rw [hv] at hok2
      rcases List.mem_cons.mp hpr with h1 | h1
      · subst h1; exact hv
      · exact ih hok2 pr h1

/-- A `num` operand spec accepted by the loader carries, when the
`transformations` key is present, a genuine list of valid names (JSON
`null` is rejected). -/
theorem validate_operand_spec_one_ok (mn : String) (op : OperandSpec)
    (h : validate_operand_spec_one mn op = .ok ()) (htype : op.type = "num") :
    ∀ v, op.transformations = some v →
      ∃ ts, v = some ts ∧ ts.all (· ∈ VALID_TRANSFORMATIONS) = true := by
  intro v hv
  unfold validate_operand_spec_one at h
  rw [htype] at h
  rw [if_neg (by simp [VALID_OPERAND_TYPES])] at h
  rw [if_pos rfl] at h
  cases hr : op.range with
  | none =>
    rw [hr] at h
    exact Except.noConfusion h
  | some rv =>
    rw [hr] at h
    dsimp only at h
    by_cases hl : rv.length = 2
    · rw [dif_pos hl] at h
      by_cases hcmp : rv[0] > rv[1]
      · rw [if_pos hcmp] at h
        exact Except.noConfusion h
      · rw [if_neg hcmp] at h
        rw [hv] at h
        cases v with
        | none => exact Except.noConfusion h
        | some ts =>
          dsimp only at h
          by_cases hall : ts.all (· ∈ VALID_TRANSFORMATIONS) = true
          · exact ⟨ts, rfl, hall⟩
          · rw [if_neg hall] at h
            exact Except.noConfusion h
    · rw [dif_neg hl] at h
      exact Except.noConfusion h

theorem validate_operands_spec_ok (mn : String) :
    ∀ ops, validate_operands_spec mn ops = .ok () →
    ∀ op ∈ ops, validate_operand_spec_one mn op = .ok () := by
  intro ops
  induction ops with
  | nil => intro _ op hop; simp at hop
  | cons o rest ih =>
    intro hok op hop
    have hok2 : (do
        validate_operand_spec_one mn o
        validate_operands_spec mn rest) = Except.ok () := hok
    cases hv : validate_operand_spec_one mn o with
    | error e =>
      rw [hv] at hok2
      exact Except.noConfusion hok2
    | ok u =>
      cases u
      rw [hv] at hok2
      rcases List.mem_cons.mp hop with h1 | h1
      · subst h1; exact hv
      · exact ih hok2 op h1

/-- A catalog accepted by the loader has loader-valid operand lists on
every entry. -/
theorem validate_instructions_ok :
    ∀ (content : List InstrSpec) (seen : List String),
      validate_instructions_go seen content = .ok () →
      ∀ e ∈ content, validate_operands_spec e.mnemonic e.operands = .ok () := by
  intro content
  induction content with
  | nil => intro _ _ e he; simp at he
  | cons ins rest ih =>
    intro seen hok e he
    simp only [validate_instructions_go] at hok
    by_cases h1 : ins.mnemonic = ""
    · rw [if_pos h1] at hok
      exact Except.noConfusion hok
    · rw [if_neg h1] at hok
      by_cases h2 : ins.mnemonic ∈ seen
      · rw [if_pos h2] at hok
        exact Except.noConfusion hok
      · rw [if_neg h2] at hok
        cases hv : validate_operands_spec ins.mnemonic ins.operands with
        | error err =>
          rw [hv] at hok
          exact Except.noConfusion hok
        | ok u =>
          cases u
          rw [hv] at hok
          cases hv2 : validate_code_template ins.code_template ins.operands
              ins.mnemonic with
          | error err =>
            rw [hv2] at hok
            exact Except.noConfusion hok
          | ok u2 =>
            cases u2
            rw [hv2] at hok
            rcases List.mem_cons.mp he with h3 | h3
            · subst h3; exact hv
            · exact ih (ins.mnemonic :: seen) hok e h3

/-- A successfully validated operand has a parseable literal of the kind
its spec demands. -/
theorem validate_operand_ok_facts (tok : Token) (op : OperandSpec)
    (h : validate_operand tok op = .ok ()) :
    (op.type = "reg" → ∃ n, get_register_number tok = some n) ∧
    (op.type = "num" → ∃ n, get_number tok = some n) ∧
    (op.type = "adr" → (tok.type = "IDENT" ∨ ∃ n, get_number tok = some n)) := by
  refine ⟨?_, ?_, ?_⟩
  · intro htype
    unfold validate_operand at h
    rw [htype] at h
    rw [if_pos rfl] at h
    by_cases hreg : is_register tok
    · rw [if_neg (by simpa using hreg)] at h
      cases hn : get_register_number tok with
      | none =>
        rw [hn] at h
        exact Except.noConfusion h
      | some n => exact ⟨n, rfl⟩
    · rw [if_pos (by simpa using hreg)] at h
      exact Except.noConfusion h
  · intro htype
    unfold validate_operand at h
    rw [htype] at h
    rw [if_neg (by decide), if_pos rfl] at h
    by_cases hnum : is_number tok
    · rw [if_neg (by simpa using hnum)] at h
      cases hn : get_number tok with
      | none =>
        rw [hn] at h
        exact Except.noConfusion h
      | some n => exact ⟨n, rfl⟩
    · rw [if_pos (by simpa using hnum)] at h
      exact Except.noConfusion h
  · intro htype
    unfold validate_operand at h
    rw [htype] at h
    rw [if_neg (by decide), if_neg (by decide), if_pos rfl] at h
    by_cases hadr : is_address tok
    · rw [if_neg (by simpa using hadr)] at h
      by_cases hnum : is_number tok
      · rw [if_pos hnum] at h
        cases hn : get_number tok with
        | none =>
          rw [hn] at h
          exact Except.noConfusion h
        | some n => exact Or.inr ⟨n, rfl⟩
      · refine Or.inl ?_
        unfold is_address at hadr
        simp only [Bool.or_eq_true, decide_eq_true_eq] at hadr
        rcases hadr with h1 | h1
        · exact h1
        · exact absurd h1 (by simpa using hnum)
    · rw [if_pos (by simpa using hadr)] at h
      exact Except.noConfusion h

theorem placeholderFor_some (t : String) (c : Char) (h : placeholderFor t = some c) :
    (t = "reg" ∧ c = 'R') ∨ (t = "num" ∧ c = 'N') ∨ (t = "adr" ∧ c = 'A') := by
  unfold placeholderFor at h
  by_cases h1 : t = "reg"
  · rw [if_pos h1] at h
    cases h
    exact Or.inl ⟨h1, rfl⟩
  · rw [if_neg h1] at h
    by_cases h2 : t = "num"
    · rw [if_pos h2] at h
      cases h
      exact Or.inr (Or.inl ⟨h2, rfl⟩)
    · rw [if_neg h2] at h
      by_cases h3 : t = "adr"
      · rw [if_pos h3] at h
        cases h
        exact Or.inr (Or.inr ⟨h3, rfl⟩)
      · rw [if_neg h3] at h
        exact Option.noConfusion h

/-- Conditions under which one operand step of `generate_instruction`
succeeds: the literal parses (or the label is bound) and, for `num`, the
`transformations` key holds a list of valid names. -/
def stepOK (table : List (String × Nat)) (pr : Token × OperandSpec) : Prop :=
  (pr.2.type = "reg" → ∃ n, get_register_number pr.1 = some n) ∧
  (pr.2.type = "num" → (∃ n, get_number pr.1 = some n) ∧
    ∃ ts, pr.2.transformations = some (some ts) ∧
      ts.all (· ∈ VALID_TRANSFORMATIONS) = true) ∧
  (pr.2.type = "adr" →
    (pr.1.type = "IDENT" → ∃ a, tableGet table pr.1.value = some a) ∧
    (pr.1.type ≠ "IDENT" → ∃ n, get_number pr.1 = some n))

theorem int_to_bin_toList (v : Int) (w : Nat) :
    (int_to_bin v w).toList = toBits ((v % (2 ^ w : Int)).toNat) w := by
  rw [int_to_bin_masked]
  rfl

/-- Main operand-loop lemma: over a template split into an all-`0`/`1`
prefix and a remainder satisfying the §3 invariant for the remaining
operands, the loop succeeds, preserves the length, and produces only
`0`/`1` characters. -/
theorem generate_operands_ok (table : List (String × Nat)) :
    ∀ (pairs : List (Token × OperandSpec)) (pre rem : List Char),
      pre.all isBin01 = true →
      templateInvariantGo rem (pairs.map Prod.snd) = true →
      (∀ pr ∈ pairs, stepOK table pr) →
      ∃ out : List Char,
        generate_operands table ⟨pre ++ rem⟩ pairs = .ok ⟨out⟩ ∧
        out.length = pre.length + rem.length ∧
        out.all isBin01 = true := by
  intro pairs
  induction pairs with
  | nil =>
    intro pre rem hpre hinv _
    refine ⟨pre ++ rem, rfl, by simp, ?_⟩
    simp only [List.map_nil, templateInvariantGo] at hinv
    simp [List.all_append, hpre, hinv]
  | cons pr0 rest ih =>
    intro pre rem hpre hinv hstep
    obtain ⟨tok, op⟩ := pr0
    simp only [List.map_cons, templateInvariantGo] at hinv
    cases hc : placeholderFor op.type with
    | none => rw [hc] at hinv; exact absurd hinv (by simp)
    | some c =>
      rw [hc] at hinv
      dsimp only at hinv
      cases hf : findRun c rem with
      | none => rw [hf] at hinv; exact absurd hinv (by simp)
      | some pl =>
        obtain ⟨pos, len⟩ := pl
        rw [hf] at hinv
        dsimp only at hinv
        simp only [Bool.and_eq_true] at hinv
        obtain ⟨hskip, hinvrest⟩ := hinv
        have hbound := findRun_bound c rem pos len hf
        have hcRNA : c = 'R' ∨ c = 'N' ∨ c = 'A' := by
          rcases placeholderFor_some op.type c hc with ⟨_, h⟩ | ⟨_, h⟩ | ⟨_, h⟩
          · exact Or.inl h
          · exact Or.inr (Or.inl h)
          · exact Or.inr (Or.inr h)
        have hpre_ne : ∀ x ∈ pre, x ≠ c := fun x hx =>
          isBin01_ne_placeholder x (List.all_eq_true.mp hpre x hx) c hcRNA
        have hfind : findRun c (pre ++ rem) = some (pre.length + pos, len) := by
          rw [findRun_append c pre rem hpre_ne, hf]
          rfl
        have hrepl : ∀ v : Int, replace_placeholder ⟨pre ++ rem⟩ c v =
            .ok ⟨(pre ++ rem.take pos ++ (int_to_bin v len).toList) ++
              rem.drop (pos + len)⟩ := by
          intro v
          unfold replace_placeholder
          rw [show (⟨pre ++ rem⟩ : String).toList = pre ++ rem from rfl, hfind]
          dsimp only
          refine congrArg (fun l : List Char => (Except.ok ⟨l⟩ : Except AsmError String)) ?_
          rw [List.take_append pos]
          have he : pre.length + pos + len = pre.length + (pos + len) := by omega
          rw [he, List.drop_append (pos + len)]
        have hbits_all : ∀ v : Int, ((int_to_bin v len).toList.all isBin01) = true := by
          intro v
          rw [int_to_bin_toList]
          exact toBits_all01 len _
        have hbits_len : ∀ v : Int, (int_to_bin v len).toList.length = len := by
          intro v
          rw [int_to_bin_toList]
          exact toBits_length len _
        have hpre2 : ∀ v : Int,
            ((pre ++ rem.take pos ++ (int_to_bin v len).toList).all isBin01) = true := by
          intro v
          rw [List.all_append, List.all_append, hpre, hskip, hbits_all v]
          rfl
        have hplen : ∀ v : Int,
            (pre ++ rem.take pos ++ (int_to_bin v len).toList).length =
              pre.length + pos + len := by
          intro v
          have h1 : (rem.take pos).length = pos := by
            rw [List.length_take]
            omega
          rw [List.length_append, List.length_append, h1, hbits_len v]
        have hsteprest : ∀ pr ∈ rest, stepOK table pr := fun pr hpr =>
          hstep pr (List.mem_cons_of_mem _ hpr)
        have hstephead := hstep (tok, op) (List.mem_cons_self _ _)
        have hfinish : ∀ (v : Int),
            (∃ out : List Char,
              generate_operands table
                ⟨(pre ++ rem.take pos ++ (int_to_bin v len).toList) ++
                  rem.drop (pos + len)⟩ rest = .ok ⟨out⟩ ∧
              out.length = pre.length + rem.length ∧
              out.all isBin01 = true) := by
          intro v
          obtain ⟨out, hout, hlen2, hall⟩ :=
            ih (pre ++ rem.take pos ++ (int_to_bin v len).toList)
              (rem.drop (pos + len)) (hpre2 v) hinvrest hsteprest
          refine ⟨out, hout, ?_, hall⟩
          rw [hlen2, hplen v, List.length_drop]
          omega
        rcases placeholderFor_some op.type c hc with ⟨htype, hcc⟩ | ⟨htype, hcc⟩ |
          ⟨htype, hcc⟩
        · subst hcc
          obtain ⟨n, hn⟩ := hstephead.1 htype
          have hn2 : get_register_number tok = some n := hn
          obtain ⟨out, hout, hlen2, hall⟩ := hfinish n
          refine ⟨out, ?_, hlen2, hall⟩
          simp only [generate_operands, if_pos htype, hn2]
          show (do
              let b ← replace_placeholder (⟨pre ++ rem⟩ : String) 'R' n
              generate_operands table b rest) = Except.ok ⟨out⟩
          rw [hrepl n]
          exact hout
        · subst hcc
          obtain ⟨⟨n, hn⟩, ts, hts, htsval⟩ := hstephead.2.1 htype
          have hn2 : get_number tok = some n := hn
          have hts2 : op.transformations = some (some ts) := hts
          obtain ⟨v, hv⟩ := transform_operand_valid ts n htsval
          obtain ⟨out, hout, hlen2, hall⟩ := hfinish v
          refine ⟨out, ?_, hlen2, hall⟩
          have htr : ¬ op.type = "reg" := by rw [htype]; decide
          simp only [generate_operands, if_neg htr, if_pos htype, hn2, hts2]
          show (do
              let transformed_num ← transform_operand n (some ts)
              let b ← replace_placeholder (⟨pre ++ rem⟩ : String) 'N' transformed_num
              generate_operands table b rest) = Except.ok ⟨out⟩
          rw [hv]
          show (do
              let b ← replace_placeholder (⟨pre ++ rem⟩ : String) 'N' v
              generate_operands table b rest) = Except.ok ⟨out⟩
          rw [hrepl v]
          exact hout
        · subst hcc
          have htr : ¬ op.type = "reg" := by rw [htype]; decide
          have htn : ¬ op.type = "num" := by rw [htype]; decide
          by_cases htok : tok.type = "IDENT"
          · obtain ⟨a, ha⟩ := (hstephead.2.2 htype).1 htok
            have ha2 : tableGet table tok.value = some a := ha
            obtain ⟨out, hout, hlen2, hall⟩ := hfinish (a : Int)
            refine ⟨out, ?_, hlen2, hall⟩
            simp only [generate_operands, if_neg htr, if_neg htn, if_pos htype,
              if_pos htok, ha2]
            show (do
                let b ← replace_placeholder (⟨pre ++ rem⟩ : String) 'A' (a : Int)
                generate_operands table b rest) = Except.ok ⟨out⟩
            rw [hrepl (a : Int)]
            exact hout
          · obtain ⟨n, hn⟩ := (hstephead.2.2 htype).2 htok
            have hn2 : get_number tok = some n := hn
            obtain ⟨out, hout, hlen2, hall⟩ := hfinish n
            refine ⟨out, ?_, hlen2, hall⟩
            simp only [generate_operands, if_neg htr, if_neg htn, if_pos htype,
              if_neg htok, hn2]
            show (do
                let b ← replace_placeholder (⟨pre ++ rem⟩ : String) 'A' n
                generate_operands table b rest) = Except.ok ⟨out⟩
            rw [hrepl n]
            exact hout

/-- A validated instruction line generates a 16-character `0`/`1` word
when the catalog entry is loader-valid, satisfies the §3 template
invariant, carries the `transformations` key on `num` operands, and every
`IDENT` argument is bound in the symbol table. -/
theorem generate_instruction_ok (catalog : List InstrSpec)
    (table : List (String × Nat)) (m : String) (args : List Token) (l col : Nat)
    (hv : validate_instruction catalog m args l col = .ok ())
    (hcat : ∀ e ∈ catalog, validate_operands_spec e.mnemonic e.operands = .ok ())
    (hlen16 : ∀ e ∈ catalog, e.code_template.length = 16)
    (hinv : ∀ e ∈ catalog, templateInvariant e.operands e.code_template.toList = true)
    (hkey : ∀ e ∈ catalog, ∀ op ∈ e.operands, op.type = "num" →
      op.transformations ≠ none)
    (hdef : ∀ tok ∈ args, tok.type = "IDENT" →
      (tableGet table tok.value).isSome = true) :
    ∃ c, generate_instruction catalog table m args = .ok c ∧
      c.length = 16 ∧ c.toList.all isBin01 = true := by
  obtain ⟨spec, hd, hlencnt, hvops⟩ := validate_instruction_ok catalog m args l col hv
  have hmem := dictGet_mem_of_some catalog (pyUpper m) spec hd
  have hsteps : ∀ pr ∈ args.zip spec.operands, stepOK table pr := by
    intro pr hpr
    have hvop := validate_operand_list_ok _ hvops pr hpr
    obtain ⟨hmem1, hmem2⟩ := List.of_mem_zip hpr
    obtain ⟨f1, f2, f3⟩ := validate_operand_ok_facts pr.1 pr.2 hvop
    refine ⟨f1, ?_, ?_⟩
    · intro htype
      refine ⟨f2 htype, ?_⟩
      have hk := hkey spec hmem pr.2 hmem2 htype
      cases htv : pr.2.transformations with
      | none => exact absurd htv hk
      | some v =>
        obtain ⟨ts, hts, hvalid⟩ := validate_operand_spec_one_ok spec.mnemonic pr.2
          (validate_operands_spec_ok spec.mnemonic spec.operands (hcat spec hmem)
            pr.2 hmem2) htype v htv
        exact ⟨ts, congrArg some hts, hvalid⟩
    · intro htype
      constructor
      · intro htok
        have hsome := hdef pr.1 hmem1 htok
        cases hg : tableGet table pr.1.value with
        | none => rw [hg] at hsome; simp at hsome
        | some a => exact ⟨a, rfl⟩
      · intro htok
        rcases f3 htype with h1 | h1
        · exact absurd h1 htok
        · exact h1
  have hzipmap : (args.zip spec.operands).map Prod.snd = spec.operands :=
    List.map_snd_zip args spec.operands (le_of_eq hlencnt.symm)
  have hinvzip : templateInvariantGo spec.code_template.toList
      ((args.zip spec.operands).map Prod.snd) = true := by
    rw [hzipmap]
    exact hinv spec hmem
  obtain ⟨out, hout, hlen, hall⟩ := generate_operands_ok table
    (args.zip spec.operands) [] spec.code_template.toList rfl hinvzip hsteps
  have hstr : (⟨[] ++ spec.code_template.toList⟩ : String) = spec.code_template := by
    rw [List.nil_append]
    exact string_mk_toList _
  rw [hstr] at hout
  refine ⟨⟨out⟩, ?_, ?_, hall⟩
  · unfold generate_instruction
    rw [hd]
    exact hout
  · show out.length = 16
    rw [hlen]
    have := hlen16 spec hmem
    simp only [List.length_nil, Nat.zero_add]
    rw [show spec.code_template.toList.length = spec.code_template.length from rfl]
    exact this

/-- The second code-generation pass emits one word per instruction, in
source order. -/
theorem generate_code_go_ok (catalog : List InstrSpec)
    (table : List (String × Nat)) :
    ∀ program : List Stmt,
      (∀ m args l col, Stmt.instruction m args l col ∈ program →
        ∃ c, generate_instruction catalog table m args = .ok c ∧
          c.length = 16 ∧ c.toList.all isBin01 = true) →
      ∃ out, generate_code_go catalog table program = .ok out ∧
        out.length = countInstr program ∧
        List.Forall₂ (fun s c =>
          match s with
          | Stmt.instruction m args _ _ =>
            generate_instruction catalog table m args = .ok c
          | Stmt.label _ _ _ => False) (program.filter isInstrStmt) out ∧
        ∀ c ∈ out, c.length = 16 ∧ c.toList.all isBin01 = true := by
  intro program
  induction program with
  | nil =>
    intro _
    exact ⟨[], rfl, rfl, List.Forall₂.nil, by simp⟩
  | cons s rest ih =>
    intro h
    match s with
    | .label n l c =>
      obtain ⟨out, hgo, hl, hfa, hcout⟩ := ih (fun m args l2 col hmem =>
        h m args l2 col (List.mem_cons_of_mem _ hmem))
      refine ⟨out, hgo, ?_, ?_, hcout⟩
      · rw [hl]
        simp [countInstr, isInstrStmt]
      · simpa [isInstrStmt] using hfa
    | .instruction m args l col =>
      obtain ⟨c, hc, h16, hallc⟩ := h m args l col (List.mem_cons_self _ _)
      obtain ⟨out, hgo, hl, hfa, hcout⟩ := ih (fun m2 args2 l2 col2 hmem =>
        h m2 args2 l2 col2 (List.mem_cons_of_mem _ hmem))
      refine ⟨c :: out, ?_, ?_, ?_, ?_⟩
      · simp only [generate_code_go, hc, hgo]
        rfl
      · rw [List.length_cons, hl]
        simp [countInstr, isInstrStmt]
      · have hfilter : (Stmt.instruction m args l col :: rest).filter isInstrStmt =
            Stmt.instruction m args l col :: rest.filter isInstrStmt := by
          simp [isInstrStmt]
        rw [hfilter]
        exact List.Forall₂.cons hc hfa
      · intro c2 hc2
        rcases List.mem_cons.mp hc2 with h1 | h1
        · subst h1; exact ⟨h16, hallc⟩
        · exact hcout c2 h1

/-- C2 (amended): if additionally every `num` operand spec carries the
`transformations` key, then for every parsed program that passes
validation, has no duplicate labels, at most 1024 instructions, and
references only defined labels, assembled against a loader-accepted
catalog of 16-character templates satisfying the §3 invariant,
`generate_code` returns exactly one word per `Instruction` statement, in
source order (labels contribute nothing), each a 16-character `0`/`1`
string. -/
theorem c2_generate_code_shape (catalog : List InstrSpec) (program : List Stmt)
    (hload : validate_instructions_file catalog = .ok ())
    (hlen16 : ∀ e ∈ catalog, e.code_template.length = 16)
    (hinv : ∀ e ∈ catalog, templateInvariant e.operands e.code_template.toList = true)
    (hkey : ∀ e ∈ catalog, ∀ op ∈ e.operands, op.type = "num" →
      op.transformations ≠ none)
    (hval : validate_program catalog program = .ok ())
    (hnd : noDupLabels program)
    (hcount : countInstr program ≤ MAX_PROGRAM_SIZE)
    (hdef : ∀ m args l col, Stmt.instruction m args l col ∈ program →
      ∀ tok ∈ args, tok.type = "IDENT" → tok.value ∈ labelNames program) :
    ∃ table out, resolve_labels program = .ok table ∧
      generate_code catalog program = .ok out ∧
      out.length = countInstr program ∧
      List.Forall₂ (fun s c =>
        match s with
        | Stmt.instruction m args _ _ =>
          generate_instruction catalog table m args = .ok c
        | Stmt.label _ _ _ => False) (program.filter isInstrStmt) out ∧
      ∀ c ∈ out, c.length = 16 ∧ c.toList.all isBin01 = true := by
  obtain ⟨table, htab⟩ :=
    resolve_labels_go_ok program 0 [] (fun _ _ => rfl) hnd (by omega)
  have htab2 : resolve_labels program = .ok table := htab
  have hcat := validate_instructions_ok catalog [] hload
  have hperinstr : ∀ m args l col, Stmt.instruction m args l col ∈ program →
      ∃ c, generate_instruction catalog table m args = .ok c ∧
        c.length = 16 ∧ c.toList.all isBin01 = true := by
    intro m args l col hmem
    refine generate_instruction_ok catalog table m args l col
      (validate_program_ok catalog program hval m args l col hmem)
      hcat hlen16 hinv hkey ?_
    intro tok htokmem htok
    exact resolve_labels_defined program table htab2 tok.value
      (hdef m args l col hmem tok htokmem htok)
  obtain ⟨out, hgo, hl, hfa, hcout⟩ :=
    generate_code_go_ok catalog table program hperinstr
  refine ⟨table, out, htab2, ?_, hl, hfa, hcout⟩
  unfold generate_code
  rw [htab2]
  exact hgo

/-- A one-instruction program exercising the claim's hypotheses against
`catalogNoTransKey`. -/
def programC2 : List Stmt := [Stmt.instruction "MOV" [⟨"DEC", "5", 1, 5⟩] 1 1]

/-- C2 counterexample: the one-instruction program `MOV 5` against a
catalog whose single entry lacks the optional `transformations` key
satisfies every hypothesis of the claim — it passes validation, has no
labels, one instruction, the catalog is loader-accepted and its template
satisfies the §3 invariant — yet `generate_code` raises `KeyError
'transformations'` instead of returning a list of words. -/
theorem c2_generate_code_counterexample :
    validate_program catalogNoTransKey programC2 = .ok () ∧
    validate_instructions_file catalogNoTransKey = .ok () ∧
    noDupLabels programC2 ∧
    countInstr programC2 ≤ MAX_PROGRAM_SIZE ∧
    templateInvariant [⟨"num", some [0, 255], none⟩] "00000000N_______".toList = true ∧
    generate_code catalogNoTransKey programC2 =
      .error (.keyError "transformations") := by
  refine ⟨rfl, rfl, ?_, by decide, by decide, rfl⟩
  simp [noDupLabels, labelNames, programC2]

/-- C2 witness: the amended theorem applied to the end-to-end scenario
program and catalog, yielding the three 16-bit words. -/
theorem c2_generate_code_shape_witness :
    ∃ table out,
      resolve_labels [Stmt.label ".start" 1 1,
        Stmt.instruction "MOV" [⟨"REGISTER", "R1", 2, 5⟩, ⟨"DEC", "5", 2, 9⟩] 2 1,
        Stmt.label ".loop" 3 1,
        Stmt.instruction "ADD" [⟨"REGISTER", "R1", 4, 5⟩, ⟨"REGISTER", "R2", 4, 9⟩] 4 1,
        Stmt.instruction "JMP" [⟨"IDENT", ".loop", 5, 5⟩] 5 1] = .ok table ∧
      generate_code catalogC1 [Stmt.label ".start" 1 1,
        Stmt.instruction "MOV" [⟨"REGISTER", "R1", 2, 5⟩, ⟨"DEC", "5", 2, 9⟩] 2 1,
        Stmt.label ".loop" 3 1,
        Stmt.instruction "ADD" [⟨"REGISTER", "R1", 4, 5⟩, ⟨"REGISTER", "R2", 4, 9⟩] 4 1,
        Stmt.instruction "JMP" [⟨"IDENT", ".loop", 5, 5⟩] 5 1] = .ok out ∧
      out.length = 3 ∧
      ∀ c ∈ out, c.length = 16 ∧ c.toList.all isBin01 = true := by
  obtain ⟨table, out, h1, h2, h3, _, h5⟩ := c2_generate_code_shape catalogC1
    [Stmt.label ".start" 1 1,
     Stmt.instruction "MOV" [⟨"REGISTER", "R1", 2, 5⟩, ⟨"DEC", "5", 2, 9⟩] 2 1,
     Stmt.label ".loop" 3 1,
     Stmt.instruction "ADD" [⟨"REGISTER", "R1", 4, 5⟩, ⟨"REGISTER", "R2", 4, 9⟩] 4 1,
     Stmt.instruction "JMP" [⟨"IDENT", ".loop", 5, 5⟩] 5 1]
    rfl (by decide) (by decide) (by decide) rfl
    (by simp [noDupLabels, labelNames]) (by decide)
    (by
      intro m args l col hmem tok htokmem htok
      simp only [List.mem_cons, List.not_mem_nil, or_false] at hmem
      rcases hmem with h | h | h | h | h
      · exact Stmt.noConfusion h
      · injection h with h1 h2 h3 h4
        subst h2
        simp only [List.mem_cons, List.not_mem_nil, or_false] at htokmem
        rcases htokmem with ht | ht <;> subst ht <;>
          exact absurd htok (by decide)
      · exact Stmt.noConfusion h
      · injection h with h1 h2 h3 h4
        subst h2
        simp only [List.mem_cons, List.not_mem_nil, or_false] at htokmem
        rcases htokmem with ht | ht <;> subst ht <;>
          exact absurd htok (by decide)
      · injection h with h1 h2 h3 h4
        subst h2
        simp only [List.mem_cons, List.not_mem_nil, or_false] at htokmem
        subst htokmem
        show ".loop" ∈ labelNames _
        decide)
  exact ⟨table, out, h1, h2, h3, h5⟩
